import Mathlib

/-!
Verification development for the `aiimglib` media-metadata catalog.

The Python source is shallowly embedded: JSON values become an inductive
`Json` type, the SQLite store becomes an explicit `DB` record, fallible
operations return `Except String`, timestamps are `Nat` parameters and
generated UUIDs are a deterministic fresh-id stream `"rec-" ++ n`.
Each definition mirrors one function of the source; file/module names are
recorded in the doc comments.
-/

namespace AiImgLib

/-! ### Kernel-computable string primitives

Python's `str` operations, implemented over `String.data` so that every
definition reduces inside the kernel (`str.strip`, `str.lower`,
`str.split`, substring containment, lexicographic comparison by code
point). -/

/-- Python `str.strip()`. -/
def pyStrip (s : String) : String :=
  String.mk (((s.data.dropWhile Char.isWhitespace).reverse.dropWhile
    Char.isWhitespace).reverse)

/-- Python `str.lower()` (ASCII case folding, as the source only handles
ASCII names). -/
def pyLower (s : String) : String :=
  String.mk (s.data.map Char.toLower)

/-- Python `str.split(sep)` for a one-character separator. -/
def splitOnCharAux (c : Char) : List Char → List Char → List (List Char)
  | [], acc => [acc.reverse]
  | x :: xs, acc =>
    if x == c then acc.reverse :: splitOnCharAux c xs []
    else splitOnCharAux c xs (x :: acc)

/-- Python `str.split(sep)` for a one-character separator. -/
def splitOnChar (c : Char) (s : String) : List String :=
  (splitOnCharAux c s.data []).map String.mk

/-- Python `sep.join(parts)`. -/
def joinWith (sep : String) : List String → String
  | [] => ""
  | [x] => x
  | x :: y :: xs => x ++ sep ++ joinWith sep (y :: xs)

/-- Char-list prefix test. -/
def startsWithList : List Char → List Char → Bool
  | _, [] => true
  | [], _ :: _ => false
  | a :: as, b :: bs => a == b && startsWithList as bs

/-- Char-list substring test. -/
def containsSub : List Char → List Char → Bool
  | [], pat => pat.isEmpty
  | a :: as, pat => startsWithList (a :: as) pat || containsSub as pat

/-- Python `pat in s` / SQL `LIKE '%pat%'`. -/
def strContains (s pat : String) : Bool :=
  containsSub s.data pat.data

/-- Lexicographic `≤` on strings by code point (Python string order). -/
def charListLe : List Char → List Char → Bool
  | [], _ => true
  | _ :: _, [] => false
  | a :: as, b :: bs =>
    if a.toNat < b.toNat then true
    else if b.toNat < a.toNat then false
    else charListLe as bs

/-- Lexicographic `≤` on strings by code point (Python string order). -/
def strLeB (a b : String) : Bool :=
  charListLe a.data b.data

/-- Insert into a sorted list (insertion-sort step). -/
def insertSorted (x : String) : List String → List String
  | [] => [x]
  | y :: ys => if strLeB x y then x :: y :: ys else y :: insertSorted x ys

/-- Insertion sort in Python's string order. -/
def sortStrings (l : List String) : List String :=
  l.foldr insertSorted []

/-- JSON-like values as produced by Python's `json` module.  Python `None`
and JSON `null` are the same object in the source, both become `Json.null`;
numbers are modelled as rationals. -/
inductive Json where
  | null : Json
  | bool (b : Bool) : Json
  | num (q : ℚ) : Json
  | str (s : String) : Json
  | arr (xs : List Json) : Json
  | obj (kvs : List (String × Json)) : Json
  deriving Repr

/-- Lookup of a key in a JSON object (`ref["id"]` / `ref.get("id")`);
Python dicts have unique keys, the first match is the value. -/
def jsonGet (kvs : List (String × Json)) (k : String) : Option Json :=
  (kvs.find? (fun kv => kv.fst == k)).map Prod.snd

/-- Python's `set(ref.keys()) == {"id"}`: every key is `"id"` and there is
at least one key. -/
def keySetIsExactlyId (kvs : List (String × Json)) : Bool :=
  !kvs.isEmpty && kvs.all (fun kv => kv.fst == "id")

/-- Check of one element of `references` inside
`app/prompt_meta.py: validate_prompt_meta_structure` (the loop body),
returning the exact error message raised first. -/
def checkReference (r : Json) : Except String Unit :=
  match r with
  | Json.obj kvs =>
    if keySetIsExactlyId kvs then
      match jsonGet kvs "id" with
      | some (Json.str s) =>
        if s == "" then
          Except.error "prompt reference ids must be non-empty strings"
        else Except.ok ()
      | _ => Except.error "prompt reference ids must be non-empty strings"
    else Except.error "prompt references must be objects containing only an 'id' field"
  | _ => Except.error "prompt references must be objects containing only an 'id' field"

/-- The `for ref in references` loop of `validate_prompt_meta_structure`:
stops at the first bad reference. -/
def checkReferences : List Json → Except String Unit
  | [] => Except.ok ()
  | r :: rs => do
    checkReference r
    checkReferences rs

/-- Embedding of `app/prompt_meta.py: validate_prompt_meta_structure`.
`None`/`str`/`dict` are returned unchanged; a list must be non-empty, end
in a string, and every preceding element must be a dict whose key set is
exactly `{"id"}` with a non-empty string id; anything else fails. -/
def validate_prompt_meta_structure : Json → Except String Json
  | Json.null => Except.ok Json.null
  | Json.str s => Except.ok (Json.str s)
  | Json.obj kvs => Except.ok (Json.obj kvs)
  | Json.arr xs =>
    match xs.getLast? with
    | none =>
      Except.error "prompt reference lists must include a trailing prompt string"
    | some lastVal =>
      match lastVal with
      | Json.str _ => do
        checkReferences xs.dropLast
        Except.ok (Json.arr xs)
      | _ =>
        Except.error "prompt reference lists must end with the prompt text string"
  | _ => Except.error "prompt metadata must be a string, dict, or prompt reference list"

/-- Embedding of `app/prompt_meta.py: extract_prompt_text`.  The
`value[-1]` access after a successful validation always hits the trailing
string; the fallback error branch is unreachable. -/
def extract_prompt_text : Json → Except String String
  | Json.null => Except.ok ""
  | Json.str s => Except.ok s
  | Json.arr xs =>
    match validate_prompt_meta_structure (Json.arr xs) with
    | Except.error e => Except.error e
    | Except.ok _ =>
      match xs.getLast? with
      | some (Json.str s) => Except.ok s
      | _ => Except.error "prompt reference lists must end with the prompt text string"
  | Json.obj _ => Except.ok ""
  | _ => Except.error "prompt metadata must be a string, dict, or prompt reference list"

/-- A single `{"id": s}` reference object. -/
def refObj (s : String) : Json :=
  Json.obj [("id", Json.str s)]

/-! ### Ratings (`round(value, 1)` with Python's banker's rounding) -/

/-- Round to the nearest integer, ties to the even integer — the rounding
Python's builtin `round` uses. -/
def roundHalfEven (q : ℚ) : ℤ :=
  let fl := ⌊q⌋
  if q - fl < 1/2 then fl
  else if q - fl > 1/2 then fl + 1
  else if fl % 2 = 0 then fl else fl + 1

/-- Python's `round(q, 1)`. -/
def roundTenths (q : ℚ) : ℚ :=
  (roundHalfEven (10 * q) : ℚ) / 10

/-- Rating check of `app/models.py: ImageValidator._validate_rating`
(numeric coercion is modelled out: ratings arrive as rationals). -/
def validateRating : Option ℚ → Except String (Option ℚ)
  | none => Except.ok none
  | some v =>
    if 0 ≤ v ∧ v ≤ 5 then Except.ok (some (roundTenths v))
    else Except.error "rating must be between 0 and 5"

/-! ### Media records -/

/-- `app/models.py: MediaType`. -/
inductive MediaType where
  | image : MediaType
  | video : MediaType
  deriving DecidableEq, Repr

/-- `models.MediaType(value)` conversion from a raw string. -/
def MediaType.parse : String → Except String MediaType
  | "image" => Except.ok MediaType.image
  | "video" => Except.ok MediaType.video
  | s => Except.error ("Invalid media_type: " ++ s)

/-- A persisted `app/models.py: Image` row.  Timestamps are abstract `Nat`
instants; the record's tags live in the association table of the `DB`. -/
structure Image where
  id : String
  file_name : String
  media_type : MediaType
  prompt_text : String
  prompt_meta : Json
  ai_model : Option String
  notes : Option String
  rating : Option ℚ
  thumbnail_file : Option String
  captured_at : Option Int
  created_at : Nat
  updated_at : Nat
  deriving Repr

/-- Output of `app/models.py: ImageValidator`. -/
structure ValidatedMeta where
  prompt_meta : Json
  rating : Option ℚ
  deriving Repr

/-- `app/models.py: ImageValidator.model_validate` restricted to the two
fields it actually validates (`extra="allow"` passes everything else
through untouched). -/
def imageValidator (pm : Json) (rating : Option ℚ) : Except String ValidatedMeta := do
  let pm' ← validate_prompt_meta_structure pm
  let r' ← validateRating rating
  Except.ok ⟨pm', r'⟩

/-- Constructor arguments of `models.Image(**data)`; `id` and the clock are
threaded explicitly (the source draws a fresh UUID and `utcnow`). -/
structure ImageData where
  id : String
  file_name : String
  media_type : MediaType
  prompt_text : String
  prompt_meta : Json
  ai_model : Option String := none
  notes : Option String := none
  rating : Option ℚ := none
  thumbnail_file : Option String := none
  captured_at : Option Int := none

/-- `app/models.py: Image.__init__`: runs `ImageValidator` over the data
and stores the validated prompt metadata and rating.  No media-type or
thumbnail check happens here. -/
def mkImage (d : ImageData) (now : Nat) : Except String Image := do
  let v ← imageValidator d.prompt_meta d.rating
  Except.ok
    { id := d.id, file_name := d.file_name, media_type := d.media_type
      prompt_text := d.prompt_text, prompt_meta := v.prompt_meta
      ai_model := d.ai_model, notes := d.notes, rating := v.rating
      thumbnail_file := d.thumbnail_file, captured_at := d.captured_at
      created_at := now, updated_at := now }

/-! ### Tags (`app/services/tags.py`) and the relational store -/

/-- `app/models.py: Tag` row. -/
structure Tag where
  id : Nat
  name : String
  deriving DecidableEq, Repr

/-- The relational store: image rows, tag rows, the `ImageTagLink`
association table, and the tag autoincrement counter. -/
structure DB where
  images : List Image
  tagRows : List Tag
  linkRows : List (String × Nat)
  nextTagId : Nat
  deriving Repr

def DB.empty : DB := ⟨[], [], [], 0⟩

/-- `app/services/tags.py: normalize_tag` = `name.strip().lower()`. -/
def normalize_tag (name : String) : String :=
  pyLower (pyStrip name)

/-- Python's `sorted(set(l))`: duplicates removed, then sorted
lexicographically. -/
def pyUniqueSorted (l : List String) : List String :=
  sortStrings l.dedup

/-- The `INSERT OR IGNORE` statement of `app/services/tags.py:
ensure_tags`: append a fresh row unless the name already exists. -/
def insertTagIfAbsent (db : DB) (tagName : String) : DB :=
  if db.tagRows.any (fun t => t.name == tagName) then db
  else { db with tagRows := db.tagRows ++ [⟨db.nextTagId, tagName⟩],
                 nextTagId := db.nextTagId + 1 }

/-- The body of the `for tag_name in unique` loop of
`app/services/tags.py: ensure_tags`: an `INSERT OR IGNORE` of the row,
then a `SELECT` of the first row with that name (`if tag is None: continue`
is the unreachable guard after the insert). -/
def ensureTagStep (acc : DB × List Tag) (tagName : String) : DB × List Tag :=
  let db1 := insertTagIfAbsent acc.fst tagName
  match db1.tagRows.find? (fun t => t.name == tagName) with
  | none => (db1, acc.snd)
  | some t => (db1, acc.snd ++ [t])

/-- `app/services/tags.py: ensure_tags`: normalize, drop empties, dedup and
sort, then resolve-or-create each name; the resolved rows are returned in
iteration order. -/
def ensure_tags (db : DB) (names : List String) : DB × List Tag :=
  let normalized := (names.map normalize_tag).filter (fun s => s != "")
  let unique := pyUniqueSorted normalized
  unique.foldl ensureTagStep (db, [])

/-! ### File-name helpers (`app/services/files.py`) -/

/-- Characters the `_SAFE_NAME_PATTERN` regex keeps. -/
def safeChar (c : Char) : Bool :=
  c.isAlphanum || c == '.' || c == '_' || c == '-'

/-- `pathlib.Path(name).name`: the last non-empty path component. -/
def lastPathComponent (name : String) : String :=
  ((splitOnChar '/' name).filter (fun s => s != "")).getLastD ""

/-- `app/services/files.py: sanitize_storage_name`. -/
def sanitize_storage_name (name : String) : Except String String :=
  if name == "" then Except.error "filename is required"
  else
    let base := lastPathComponent name
    let sanitized := String.mk (base.toList.map (fun c => if safeChar c then c else '_'))
    if sanitized == "" || sanitized == "." || sanitized == ".." then
      Except.error "invalid filename"
    else Except.ok sanitized

/-- `pathlib.Path(name).suffix`: the final `"." ++ ext` part, empty for
extension-less or dot-leading names. -/
def pathSuffix (name : String) : String :=
  let base := lastPathComponent name
  let parts := splitOnChar '.' base
  match parts with
  | [] => ""
  | [_] => ""
  | _ =>
    let ext := parts.getLastD ""
    let stem := joinWith "." parts.dropLast
    if stem == "" || ext == "" then "" else "." ++ ext

/-- `app/services/files.py: ALLOWED_EXTENSIONS` (the image-upload
allowlist; note it contains no video extensions). -/
def ALLOWED_EXTENSIONS : List String :=
  [".png", ".jpg", ".jpeg", ".webp"]

/-- `pathlib.Path(name).stem`: the final component minus its suffix. -/
def pathStem (name : String) : String :=
  let base := lastPathComponent name
  if pathSuffix name == "" then base
  else joinWith "." ((splitOnChar '.' base).dropLast)

/-- The `while destination.exists()` loop of `copy_into_images`: try
`base_1`, `base_2`, … until the name is free.  The fuel bounds the loop; a
free name always exists within `store.length + 1` attempts. -/
def freshCopyName (store : List String) (base suffix : String) : Nat → Nat → String
  | 0, k => base ++ "_" ++ toString k ++ suffix
  | fuel + 1, k =>
    let cand := base ++ "_" ++ toString k ++ suffix
    if store.contains cand then freshCopyName store base suffix fuel (k + 1) else cand

/-- `app/services/files.py: copy_into_images`: returns the stored name,
suffixing `_1`, `_2`, … on collision with the managed store. -/
def copy_into_images (store : List String) (targetName : String) : String :=
  if store.contains targetName then
    let suffix := pathSuffix targetName
    let base := pathStem targetName
    freshCopyName store base suffix (store.length + 1) 1
  else targetName

/-! ### Record store: filtering and listing (`app/crud.py`) -/

/-- `app/crud.py: ImageFilters`. -/
structure ImageFilters where
  q : Option String := none
  tags : List String := []
  rating_min : Option ℚ := none
  rating_max : Option ℚ := none
  date_from : Option Int := none
  date_to : Option Int := none
  limit : Nat := 20
  offset : Nat := 0
  media_type : Option MediaType := none

/-- `filters.q.strip().lower() if filters.q else None`, then the
`if normalized_q:` truthiness guard. -/
def normalizedQ : Option String → Option String
  | none => none
  | some s =>
    if s == "" then none
    else
      let n := pyLower (pyStrip s)
      if n == "" then none else some n

/-- `app/crud.py: _normalized_tags`: normalize, drop empties, then
`sorted(set(...))`. -/
def crudNormalizedTags (names : List String) : List String :=
  pyUniqueSorted ((names.map normalize_tag).filter (fun s => s != ""))

/-- Tag names linked to an image: the join of `ImageTagLink` rows with the
`Tag` table. -/
def imageTagNames (db : DB) (imgId : String) : List String :=
  (db.linkRows.filter (fun l => l.fst == imgId)).filterMap
    (fun l => (db.tagRows.find? (fun t => t.id == l.snd)).map Tag.name)

/-- The grouped tag sub-query of `app/crud.py: _apply_filters`: among the
image's linked tag names, the distinct ones inside the requested list are
counted and compared to the number of requested tags. -/
def matchesTagFilter (db : DB) (requested : List String) (imgId : String) : Bool :=
  ((imageTagNames db imgId).filter (fun n => requested.contains n)).toFinset.card
    == requested.length

/-- SQL comparison against a nullable column: `NULL` never matches. -/
def optMatch {α : Type} (v : Option α) (p : α → Bool) : Bool :=
  match v with
  | none => false
  | some x => p x

/-- `app/crud.py: _apply_filters` as a row predicate. -/
def rowMatchesFilters (db : DB) (f : ImageFilters) (img : Image) : Bool :=
  (match normalizedQ f.q with
   | none => true
   | some nq =>
     strContains (pyLower img.prompt_text) nq ||
     optMatch img.notes (fun s => strContains (pyLower s) nq) ||
     optMatch img.ai_model (fun s => strContains (pyLower s) nq)) &&
  (match f.rating_min with
   | none => true
   | some m => optMatch img.rating (fun r => decide (m ≤ r))) &&
  (match f.rating_max with
   | none => true
   | some m => optMatch img.rating (fun r => decide (r ≤ m))) &&
  (match f.date_from with
   | none => true
   | some d => optMatch img.captured_at (fun c => decide (d ≤ c))) &&
  (match f.date_to with
   | none => true
   | some d => optMatch img.captured_at (fun c => decide (c ≤ d))) &&
  (let nt := crudNormalizedTags f.tags
   nt.isEmpty || matchesTagFilter db nt img.id) &&
  (match f.media_type with
   | none => true
   | some mt => img.media_type == mt)

/-- The filtered (un-paginated) row set of `app/crud.py: _apply_filters`. -/
def applyFilters (db : DB) (f : ImageFilters) : List Image :=
  db.images.filter (rowMatchesFilters db f)

/-- Result ordering of `list_images`: `captured_at` descending with nulls
last, tie-broken by `created_at` descending. -/
def listOrder (a b : Image) : Bool :=
  match a.captured_at, b.captured_at with
  | some ca, some cb => if ca = cb then decide (b.created_at ≤ a.created_at) else decide (cb < ca)
  | some _, none => true
  | none, some _ => false
  | none, none => decide (b.created_at ≤ a.created_at)

/-- Insertion-sort step for the result ordering. -/
def insertImageSorted (x : Image) : List Image → List Image
  | [] => [x]
  | y :: ys => if listOrder x y then x :: y :: ys else y :: insertImageSorted x ys

/-- Stable sort of the result set by `listOrder`. -/
def sortImages (l : List Image) : List Image :=
  l.foldr insertImageSorted []

/-- `app/crud.py: list_images`: filtered and ordered items after
offset/limit, plus the total count of the filtered set before pagination. -/
def list_images (db : DB) (f : ImageFilters) : List Image × Nat :=
  let filtered := applyFilters db f
  let ordered := sortImages filtered
  ((ordered.drop f.offset).take f.limit, filtered.length)

/-- `app/crud.py: get_image`: fetch by id or fail 404. -/
def get_image (db : DB) (imageId : String) : Except String Image :=
  match db.images.find? (fun i => i.id == imageId) with
  | none => Except.error "Image not found"
  | some img => Except.ok img

/-! ### Record store: create / update / delete (`app/crud.py`) -/

/-- `app/schemas.py: ImageCreate` payload (already parsed; its pydantic
validators re-run inside `models.Image`). -/
structure ImageCreate where
  file_name : String
  media_type : MediaType
  prompt_text : String
  prompt_meta : Json := Json.null
  ai_model : Option String := none
  notes : Option String := none
  rating : Option ℚ := none
  captured_at : Option Int := none
  thumbnail_file : Option String := none
  tags : List String := []

/-- `app/crud.py: create_image`: build the validated `Image`, resolve tags,
insert and commit.  On error nothing is persisted (the result carries no
store). -/
def create_image (db : DB) (data : ImageCreate) (newId : String) (now : Nat) :
    Except String (DB × Image) := do
  let img ← mkImage
    { id := newId, file_name := data.file_name, media_type := data.media_type
      prompt_text := data.prompt_text, prompt_meta := data.prompt_meta
      ai_model := data.ai_model, notes := data.notes, rating := data.rating
      thumbnail_file := data.thumbnail_file, captured_at := data.captured_at } now
  let resolved := ensure_tags db data.tags
  let db1 := resolved.fst
  let tagList := resolved.snd
  Except.ok
    ({ db1 with images := db1.images ++ [img]
                linkRows := db1.linkRows ++ tagList.map (fun t => (img.id, t.id)) }, img)

/-- `app/schemas.py: ImageUpdate` with pydantic `exclude_unset` semantics:
the outer `Option` is field presence, the inner value is what the payload
carries (explicitly null fields arrive as present-with-none / `Json.null`). -/
structure ImageUpdate where
  prompt_text : Option String := none
  prompt_meta : Option Json := none
  ai_model : Option (Option String) := none
  notes : Option (Option String) := none
  rating : Option (Option ℚ) := none
  media_type : Option MediaType := none
  thumbnail_file : Option (Option String) := none
  captured_at : Option (Option Int) := none
  tags : Option (List String) := none

/-- Python truthiness of an optional string (`not validated.thumbnail_file`). -/
def optStrTruthy : Option String → Bool
  | none => false
  | some s => s != ""

/-- `app/crud.py: _validate_and_normalize_updates`: merge the incoming
partial update onto the record's current values, run `ImageValidator` over
the merged candidate, write the validated values back into the present
fields, and re-check the video/thumbnail rule only when `media_type` or
`thumbnail_file` is part of the update. -/
def validate_and_normalize_updates (image : Image) (u : ImageUpdate) :
    Except String ImageUpdate := do
  let pmIn := u.prompt_meta.getD image.prompt_meta
  let ratingIn := u.rating.getD image.rating
  let mtIn := u.media_type.getD image.media_type
  let tfIn := u.thumbnail_file.getD image.thumbnail_file
  let v ← imageValidator pmIn ratingIn
  let u1 := { u with prompt_meta := u.prompt_meta.map (fun _ => v.prompt_meta)
                     rating := u.rating.map (fun _ => v.rating) }
  if (u.media_type.isSome || u.thumbnail_file.isSome) &&
      mtIn == MediaType.video && !(optStrTruthy tfIn) then
    Except.error "videos require thumbnail_file"
  else Except.ok u1

/-- `app/crud.py: update_image`: apply only the fields present in the
payload, re-validating through `_validate_and_normalize_updates` when any
of {prompt_meta, rating, media_type, thumbnail_file} is present; tag names
replace the tag set; `updated_at` is always set to the current instant. -/
def update_image (db : DB) (imageId : String) (u : ImageUpdate) (now : Nat) :
    Except String (DB × Image) := do
  let image ← get_image db imageId
  let u1 ←
    if u.prompt_meta.isSome || u.rating.isSome || u.media_type.isSome ||
        u.thumbnail_file.isSome then
      validate_and_normalize_updates image u
    else Except.ok u
  let image1 := { image with
    prompt_text := u1.prompt_text.getD image.prompt_text
    prompt_meta := u1.prompt_meta.getD image.prompt_meta
    ai_model := u1.ai_model.getD image.ai_model
    notes := u1.notes.getD image.notes
    rating := u1.rating.getD image.rating
    media_type := u1.media_type.getD image.media_type
    thumbnail_file := u1.thumbnail_file.getD image.thumbnail_file
    captured_at := u1.captured_at.getD image.captured_at }
  let afterTags : DB × List (String × Nat) :=
    match u.tags with
    | none => (db, db.linkRows)
    | some names =>
      let resolved := ensure_tags db names
      (resolved.fst,
       (resolved.fst.linkRows.filter (fun l => !(l.fst == imageId))) ++
         resolved.snd.map (fun t => (imageId, t.id)))
  let image2 := { image1 with updated_at := now }
  Except.ok
    ({ afterTags.fst with
        images := afterTags.fst.images.map (fun i => if i.id == imageId then image2 else i)
        linkRows := afterTags.snd }, image2)

/-- `app/services/files.py: delete_file` over an abstract file store with
an error oracle `fsFail`: an invalid name or an OS error is logged and
swallowed, a missing file is ignored — the call never fails. -/
def delete_file (fs : List String) (fsFail : String → Bool) (name : String) : List String :=
  match sanitize_storage_name name with
  | Except.error _ => fs
  | Except.ok safe => if fsFail safe then fs else fs.erase safe

/-- Modelled from the spec: `delete_media_files`, called by
`app/crud.py: delete_image` and the create endpoint but missing from
`src/app/services/files.py`; per §3/§5/§7 it best-effort deletes the
record's media file and thumbnail and never raises. -/
def delete_media_files (fs : List String) (fsFail : String → Bool)
    (fileName : String) (thumb : Option String) : List String :=
  let fs1 := delete_file fs fsFail fileName
  match thumb with
  | none => fs1
  | some t => delete_file fs1 fsFail t

/-- `app/crud.py: delete_image`: remove the record and its tag links,
commit, then best-effort file cleanup. -/
def delete_image (db : DB) (fs : List String) (fsFail : String → Bool)
    (imageId : String) : Except String (DB × List String) := do
  let image ← get_image db imageId
  let db1 := { db with
    images := db.images.filter (fun i => !(i.id == imageId))
    linkRows := db.linkRows.filter (fun l => !(l.fst == imageId)) }
  let fs1 := delete_media_files fs fsFail image.file_name image.thumbnail_file
  Except.ok (db1, fs1)

/-! ### Upload endpoint (`app/api/images.py`) -/

/-- A FastAPI `UploadFile` reduced to what the allowlist checks see. -/
structure UploadFile where
  filename : String
  content_type : String

/-- Modelled from the spec: the media-type-keyed `allowedExtensions` sets
of §6 — `src/app/services/files.py` only carries the image set while the
API calls a two-argument `is_allowed_upload(upload, media_type)`; the
video extensions come from §4.5. -/
def allowed_extensions_for : MediaType → List String
  | MediaType.image => ALLOWED_EXTENSIONS
  | MediaType.video => [".mp4", ".mov", ".webm", ".mkv"]

/-- Modelled from the spec: `allowed_content_types_for`, the media-type-
keyed `contentTypes` sets of §6, missing from `src/app/services/files.py`. -/
def allowed_content_types_for : MediaType → List String
  | MediaType.image => ["image/png", "image/jpeg", "image/webp"]
  | MediaType.video => ["video/mp4", "video/quicktime", "video/webm", "video/x-matroska"]

/-- Modelled from the spec: the two-argument `is_allowed_upload` the API
calls (§6); extension and content type must both be allowed for the given
media type. -/
def is_allowed_upload (u : UploadFile) (mt : MediaType) : Bool :=
  (allowed_extensions_for mt).contains (pyLower (pathSuffix u.filename)) &&
  (allowed_content_types_for mt).contains u.content_type

/-- `app/services/files.py: save_upload`: re-checks the upload's extension
against the image-only `ALLOWED_EXTENSIONS` (raising
`ValueError("unsupported file extension")` otherwise) and stores the bytes
under a fresh `uuid4().hex`-based name, returned as the stored file name.
The fresh hex stem is a parameter. -/
def save_upload (u : UploadFile) (freshHex : String) : Except String String :=
  let suffix := pyLower (pathSuffix u.filename)
  if ALLOWED_EXTENSIONS.contains suffix then Except.ok (freshHex ++ suffix)
  else Except.error "unsupported file extension"

/-- `app/api/images.py: _store_upload_or_400`: the media-type-keyed
allowlist gate (spec-modelled `is_allowed_upload`), then
`files.save_upload`, whose `ValueError` surfaces as an HTTP 400. -/
def store_upload_or_400 (u : UploadFile) (mt : MediaType) (freshHex : String) :
    Except String String :=
  if is_allowed_upload u mt then save_upload u freshHex
  else Except.error "Invalid upload type."

/-- `app/api/images.py: _parse_media_type` (`media_type` form field,
defaulting to image). -/
def parse_media_type : Option String → Except String MediaType
  | none => Except.ok MediaType.image
  | some s => MediaType.parse s

/-- `app/api/images.py: _require_thumbnail_if_video`: a video upload
without a thumbnail upload is refused up front. -/
def require_thumbnail_if_video (mt : MediaType) (thumb : Option UploadFile) :
    Except String Unit :=
  if mt == MediaType.video ∧ thumb.isNone then
    Except.error "Video uploads require a thumbnail_file."
  else Except.ok ()

/-- `app/api/images.py: create_image_endpoint`: parse the media type,
enforce the video-thumbnail rule, store the uploads, build the validated
payload and persist through `crud.create_image`.  On any error no record is
persisted (the store appears only in the success value). -/
def create_image_endpoint (db : DB) (mediaFile : UploadFile) (promptText : String)
    (tags : List String) (rating : Option ℚ) (mediaTypeRaw : Option String)
    (aiModel notes : Option String) (capturedAt : Option Int) (promptMeta : Json)
    (thumbnailUpload : Option UploadFile) (freshMedia freshThumb newId : String)
    (now : Nat) : Except String (DB × Image) := do
  let mt ← parse_media_type mediaTypeRaw
  let _ ← require_thumbnail_if_video mt thumbnailUpload
  let savedFile ← store_upload_or_400 mediaFile mt freshMedia
  let savedThumb ←
    match thumbnailUpload with
    | none => Except.ok (none : Option String)
    | some t => do
      let n ← store_upload_or_400 t MediaType.image freshThumb
      Except.ok (some n)
  let _ ← validate_prompt_meta_structure promptMeta
  let _ ←
    match rating with
    | none => Except.ok ()
    | some r =>
      if 0 ≤ r ∧ r ≤ 5 then Except.ok ()
      else Except.error "rating out of bounds"
  create_image db
    { file_name := savedFile, media_type := mt, prompt_text := promptText
      prompt_meta := promptMeta, ai_model := aiModel, notes := notes
      rating := rating, captured_at := capturedAt, thumbnail_file := savedThumb
      tags := tags } newId now

/-- The default-filter record carrying only a tag list. -/
def tagOnlyFilters (ts : List String) : ImageFilters :=
  { tags := ts }

/-! ### Legacy importer (`scripts/import_legacy_json.py`) -/

/-- One entry of the legacy JSON document (§6); `date` values are modelled
as already-parsed timestamps (`parse_datetime` is a plain format shim),
`rating` as an already-numeric value. -/
structure LegacyEntry where
  file : String
  prompt : Json := Json.null
  tags : List String := []
  rating : Option ℚ := none
  date : Option Int := none
  ai_model : Option String := none
  notes : Option String := none
  media_type : Option String := none
  thumbnail_file : Option String := none
  id : Option String := none

/-- `scripts/import_legacy_json.py: normalize_prompt`: prompt text, prompt
metadata and the list of reference dicts. -/
def normalize_prompt (prompt : Json) :
    Except String (String × Json × List (List (String × Json))) :=
  match prompt with
  | Json.null => Except.ok ("", Json.null, [])
  | Json.str s => Except.ok (s, Json.str s, [])
  | Json.arr xs =>
    match validate_prompt_meta_structure (Json.arr xs) with
    | Except.error e => Except.error e
    | Except.ok _ =>
      let refs := xs.dropLast.filterMap
        (fun j => match j with | Json.obj kvs => some kvs | _ => none)
      match xs.getLast? with
      | some (Json.str s) => Except.ok (s, Json.arr xs, refs)
      | _ => Except.error "prompt reference lists must end with the prompt text string"
  | Json.obj kvs => Except.ok ("", Json.obj kvs, [])
  | _ => Except.error "Unsupported prompt metadata structure"

/-- `scripts/import_legacy_json.py: detect_media_type`: infer VIDEO from
the file extension. -/
def detect_media_type (fileName : String) : MediaType :=
  if [".mp4", ".mov", ".webm", ".mkv"].contains (pyLower (pathSuffix fileName)) then
    MediaType.video
  else MediaType.image

/-- `scripts/import_legacy_json.py: sanitize_optional_thumbnail`. -/
def sanitize_optional_thumbnail : Option String → Except String (Option String)
  | none => Except.ok none
  | some s =>
    if s == "" then Except.ok none
    else (sanitize_storage_name s).map some

/-- `scripts/import_legacy_json.py: normalize_rating` (numeric coercion
modelled out). -/
def normalize_rating : Option ℚ → Except String (Option ℚ)
  | none => Except.ok none
  | some v =>
    if 0 ≤ v ∧ v ≤ 5 then Except.ok (some (roundTenths v))
    else Except.error "Rating must be between 0 and 5"

/-- The `payload` dict a converted entry carries into `models.Image`. -/
structure ImportPayload where
  file_name : String
  prompt_text : String
  prompt_meta : Json
  ai_model : Option String
  notes : Option String
  rating : Option ℚ
  media_type : MediaType
  thumbnail_file : Option String
  captured_at : Option Int

/-- `scripts/import_legacy_json.py: ConvertedEntry`. -/
structure ConvertedEntry where
  payload : ImportPayload
  tags : List String
  legacy_id : Option String
  reference_dicts : List (List (String × Json))
  thumbnail_source : Option String

/-- `scripts/import_legacy_json.py: convert_entry` (phase-1 validation of
one entry, including the relaxed video-thumbnail rule). -/
def convert_entry (e : LegacyEntry) : Except String ConvertedEntry := do
  let res ← normalize_prompt e.prompt
  let tags := pyUniqueSorted
    ((e.tags.filter (fun t => pyStrip t != "")).map (fun t => pyLower (pyStrip t)))
  let sanitizedName ← sanitize_storage_name e.file
  let mediaType ←
    match e.media_type with
    | none => Except.ok (detect_media_type sanitizedName)
    | some s => MediaType.parse s
  let rating ← normalize_rating e.rating
  let thumbnailFile ← sanitize_optional_thumbnail e.thumbnail_file
  if mediaType == MediaType.video && thumbnailFile.isNone && res.snd.snd.isEmpty then
    Except.error "Video entries must include a thumbnail_file or reference another asset"
  else
    Except.ok
      { payload :=
          { file_name := sanitizedName, prompt_text := res.fst
            prompt_meta := res.snd.fst, ai_model := e.ai_model, notes := e.notes
            rating := rating, media_type := mediaType
            thumbnail_file := thumbnailFile, captured_at := e.date }
        tags := tags, legacy_id := e.id, reference_dicts := res.snd.snd
        thumbnail_source := if thumbnailFile.isSome then e.thumbnail_file else none }

/-- `scripts/import_legacy_json.py: ImportedRecord`. -/
structure ImportedRecord where
  image_id : String
  legacy_id : Option String
  reference_dicts : List (List (String × Json))
  has_explicit_thumbnail : Bool
  media_type : MediaType

/-- A value of the phase-1 `legacy_lookup` dict:
`{"id": ..., "file_name": ..., "thumbnail_file": ...}`. -/
structure LookupEntry where
  newId : String
  fileName : String
  thumbnailFile : Option String
  deriving DecidableEq, Repr

/-- `legacy_lookup.get(key)`. -/
def lookupGet (lk : List (String × LookupEntry)) (k : String) : Option LookupEntry :=
  (lk.find? (fun p => p.fst == k)).map Prod.snd

/-- `legacy_lookup[key] = value` (dict assignment). -/
def lookupSet (lk : List (String × LookupEntry)) (k : String) (v : LookupEntry) :
    List (String × LookupEntry) :=
  if lk.any (fun p => p.fst == k) then
    lk.map (fun p => if p.fst == k then (k, v) else p)
  else lk ++ [(k, v)]

/-- The fresh-uuid stream: `uuid4()` modelled as distinct opaque names. -/
def freshImageId (n : Nat) : String :=
  "rec-" ++ toString n

/-- Accumulator of the phase-1 loop in
`scripts/import_legacy_json.py: import_entries`. -/
structure ImportState where
  db : DB
  store : List String
  lookup : List (String × LookupEntry)
  records : List ImportedRecord
  nextIdx : Nat

/-- `if not cond: raise ImportError(msg)` as an `Except` action. -/
def requireOk (b : Bool) (msg : String) : Except String Unit :=
  if b then Except.ok () else Except.error msg

/-- The media/thumbnail copying block of one `import_entries` iteration
(skipped on dry run): copy the media file under a collision-free name and,
when the entry carries both a thumbnail and a thumbnail source, check the
source exists and copy the thumbnail too. -/
def copyMedia (sourceFiles : List String) (dryRun : Bool) (store : List String)
    (converted : ConvertedEntry) : Except String (ImportPayload × List String) :=
  if dryRun then Except.ok (converted.payload, store)
  else
    let copiedName := copy_into_images store converted.payload.file_name
    let store1 := store ++ [copiedName]
    let p1 := { converted.payload with file_name := copiedName }
    match p1.thumbnail_file, converted.thumbnail_source with
    | some _, some tsrc =>
      if tsrc != "" then do
        let _ ← requireOk (sourceFiles.contains tsrc)
          ("Legacy image " ++ tsrc ++ " not found")
        let copiedThumb := copy_into_images store1 ((p1.thumbnail_file).getD "")
        Except.ok ({ p1 with thumbnail_file := some copiedThumb }, store1 ++ [copiedThumb])
      else Except.ok (p1, store1)
    | _, _ => Except.ok (p1, store1)

/-- One iteration of the phase-1 loop of `import_entries`: convert, check
the source file exists, check the extension allowlist, copy the media and
thumbnail files (skipped on dry run), resolve tags, insert the validated
`Image` row and extend the legacy-id lookup. -/
def import_one (sourceFiles : List String) (dryRun : Bool) (now : Nat)
    (st : ImportState) (e : LegacyEntry) : Except String ImportState := do
  let converted ← convert_entry e
  let _ ← requireOk (sourceFiles.contains e.file)
    ("Legacy image " ++ e.file ++ " not found")
  let suffix := pyLower (pathSuffix e.file)
  let _ ← requireOk (ALLOWED_EXTENSIONS.contains suffix)
    ("Unsupported legacy file extension: " ++ suffix)
  let copied ← copyMedia sourceFiles dryRun st.store converted
  let payload1 := copied.fst
  let resolved := ensure_tags st.db converted.tags
  let img ← mkImage
    { id := freshImageId st.nextIdx, file_name := payload1.file_name
      media_type := payload1.media_type, prompt_text := payload1.prompt_text
      prompt_meta := payload1.prompt_meta, ai_model := payload1.ai_model
      notes := payload1.notes, rating := payload1.rating
      thumbnail_file := payload1.thumbnail_file
      captured_at := payload1.captured_at } now
  let db1 := { resolved.fst with
    images := resolved.fst.images ++ [img]
    linkRows := resolved.fst.linkRows ++ resolved.snd.map (fun t => (img.id, t.id)) }
  let imported : ImportedRecord :=
    { image_id := img.id, legacy_id := converted.legacy_id
      reference_dicts := converted.reference_dicts
      has_explicit_thumbnail := optStrTruthy img.thumbnail_file
      media_type := img.media_type }
  let lookup1 :=
    match converted.legacy_id with
    | some lid =>
      if lid != "" then lookupSet st.lookup lid ⟨img.id, img.file_name, img.thumbnail_file⟩
      else st.lookup
    | none => st.lookup
  Except.ok
    { db := db1, store := copied.snd, lookup := lookup1
      records := st.records ++ [imported], nextIdx := st.nextIdx + 1 }

/-- Result of the reference-resolution loop inside
`_apply_reference_updates` (accumulated `updated_refs` and `first_source`). -/
structure RefFold where
  updatedRefs : List (List (String × Json))
  firstSource : Option LookupEntry

/-- The `for ref in record.reference_dicts` loop of
`_apply_reference_updates`: references with a falsy or unknown legacy id
are dropped; resolved ones get their `id` value replaced by the mapped new
id; the first resolved mapping is remembered.  `resolveRefStep` is the
loop body. -/
def resolveRefStep (lookup : List (String × LookupEntry)) (acc : RefFold)
    (ref : List (String × Json)) : RefFold :=
  match jsonGet ref "id" with
  | some (Json.str s) =>
    if s == "" then acc
    else
      match lookupGet lookup s with
      | none => acc
      | some mapped =>
        let newRef := ref.map
          (fun kv => if kv.fst == "id" then ("id", Json.str mapped.newId) else kv)
        { updatedRefs := acc.updatedRefs ++ [newRef]
          firstSource :=
            match acc.firstSource with
            | none => some mapped
            | some m => some m }
  | _ => acc

/-- The reference-resolution loop of `_apply_reference_updates`. -/
def resolveRefs (lookup : List (String × LookupEntry))
    (refs : List (List (String × Json))) : RefFold :=
  refs.foldl (resolveRefStep lookup) ⟨[], none⟩

/-- The `legacy_lookup.setdefault(...)["thumbnail_file"] = replacement`
write of `_apply_reference_updates`. -/
def setLookupThumb (lk : List (String × LookupEntry)) (lid imageId fileName : String)
    (replacement : Option String) : List (String × LookupEntry) :=
  if lk.any (fun p => p.fst == lid) then
    lk.map (fun p => if p.fst == lid then (lid, { p.snd with thumbnailFile := replacement }) else p)
  else lk ++ [(lid, ⟨imageId, fileName, replacement⟩)]

/-- Python `first_source.get("thumbnail_file") or first_source.get("file_name")`. -/
def thumbnailOrFileName (src : LookupEntry) : Option String :=
  match src.thumbnailFile with
  | some t => if t != "" then some t else some src.fileName
  | none => some src.fileName

/-- One iteration of `_apply_reference_updates` (the body of its
`for record in records` loop) over the session's images and the mutable
legacy-id lookup. -/
def applyOneReferenceUpdate (st : List Image × List (String × LookupEntry))
    (record : ImportedRecord) : List Image × List (String × LookupEntry) :=
  if record.reference_dicts.isEmpty then st
  else
    match st.fst.find? (fun i => i.id == record.image_id) with
    | none => st
    | some image =>
      let rf := resolveRefs st.snd record.reference_dicts
      if rf.updatedRefs.isEmpty then st
      else
        let image1 := { image with
          prompt_meta := Json.arr (rf.updatedRefs.map Json.obj ++ [Json.str image.prompt_text]) }
        let afterThumb :=
          if !record.has_explicit_thumbnail then
            match rf.firstSource with
            | some firstSource =>
              let replacement := thumbnailOrFileName firstSource
              let image2 := { image1 with thumbnail_file := replacement }
              let lookup1 :=
                match record.legacy_id with
                | some lid =>
                  if lid != "" && optStrTruthy replacement then
                    setLookupThumb st.snd lid record.image_id image2.file_name replacement
                  else st.snd
                | none => st.snd
              (image2, lookup1)
            | none => (image1, st.snd)
          else (image1, st.snd)
        (st.fst.map (fun i => if i.id == record.image_id then afterThumb.fst else i),
         afterThumb.snd)

/-- `scripts/import_legacy_json.py: _apply_reference_updates` (phase 2). -/
def apply_reference_updates (records : List ImportedRecord)
    (st : List Image × List (String × LookupEntry)) :
    List Image × List (String × LookupEntry) :=
  records.foldl applyOneReferenceUpdate st

/-- `scripts/import_legacy_json.py: import_entries`: phase 1 over every
entry (any failure aborts the whole batch), then phase 2, then commit — or
rollback of every store write when `dryRun` is set. -/
def import_entries (db : DB) (store sourceFiles : List String)
    (entries : List LegacyEntry) (dryRun : Bool) (now : Nat) :
    Except String (DB × List String) := do
  let st ← entries.foldlM (import_one sourceFiles dryRun now) ⟨db, store, [], [], 0⟩
  let after := apply_reference_updates st.records (st.db.images, st.lookup)
  if dryRun then Except.ok (db, store)
  else Except.ok ({ st.db with images := after.fst }, st.store)

/-! ### Persisted-record invariants (C10) -/

/-- The §4.2 rating invariant: present ratings lie in `[0, 5]` and are
fixed points of rounding to one decimal. -/
def ratingNormalized (r : Option ℚ) : Prop :=
  ∀ x ∈ r, 0 ≤ x ∧ x ≤ 5 ∧ roundTenths x = x

/-- The implicit invariant of every persisted record: its prompt metadata
passes the structural validator unchanged and its rating is normalized. -/
def imageInvariant (img : Image) : Prop :=
  validate_prompt_meta_structure img.prompt_meta = Except.ok img.prompt_meta ∧
  ratingNormalized img.rating

/-- A reference dict as certified by the structural validator: key set
exactly `{"id"}`, non-empty string id. -/
def refDictOk (kvs : List (String × Json)) : Prop :=
  checkReference (Json.obj kvs) = Except.ok ()

/-- Well-formedness of a phase-1 `ImportedRecord`: a real generated id and
validator-certified reference dicts. -/
def importedRecordOk (r : ImportedRecord) : Prop :=
  r.image_id ≠ "" ∧ ∀ kvs ∈ r.reference_dicts, refDictOk kvs

/-- Every lookup entry carries a non-empty generated id. -/
def lookupOk (lk : List (String × LookupEntry)) : Prop :=
  ∀ p ∈ lk, p.snd.newId ≠ ""

/-- The phase-1 loop invariant over the import state. -/
def importStateOk (st : ImportState) : Prop :=
  (∀ i ∈ st.db.images, imageInvariant i) ∧ lookupOk st.lookup ∧
    ∀ r ∈ st.records, importedRecordOk r

/-! ## Theorems -/

/-- C1: for reference lists the spec asserts that extra fields on
reference objects are permitted and that
`validate([{"id":"x","weight":0.5}, "t"])` succeeds; the source validator
instead requires each reference's key set to be exactly `{"id"}` and
rejects that very input (contradicting the repository's own test
`test_image_prompt_meta_allows_extra_reference_fields`), while the id-only
variant is returned unchanged with its trailing text extracted. -/
theorem validate_rejects_extra_reference_field :
    validate_prompt_meta_structure
        (Json.arr [Json.obj [("id", Json.str "x"), ("weight", Json.num (1/2))],
          Json.str "t"])
      = Except.error "prompt references must be objects containing only an 'id' field" ∧
    validate_prompt_meta_structure (Json.arr [refObj "x", Json.str "t"])
      = Except.ok (Json.arr [refObj "x", Json.str "t"]) ∧
    extract_prompt_text (Json.arr [refObj "x", Json.str "t"]) = Except.ok "t" :=
  ⟨rfl, rfl, rfl⟩

/-! ### Tag resolve-or-create (C9) -/

/-- After the `INSERT OR IGNORE`, a row with the requested name is always
found by the `SELECT`. -/
theorem insertTagIfAbsent_find (db : DB) (n : String) :
    ∃ t, (insertTagIfAbsent db n).tagRows.find? (fun tg => tg.name == n) = some t := by
  unfold insertTagIfAbsent
  by_cases h : db.tagRows.any (fun t => t.name == n)
  · rw [if_pos h]
    obtain ⟨x, hx, hpx⟩ := List.any_eq_true.mp h
    have : (db.tagRows.find? (fun tg => tg.name == n)).isSome :=
      List.find?_isSome.mpr ⟨x, hx, hpx⟩
    obtain ⟨t, ht⟩ := Option.isSome_iff_exists.mp this
    exact ⟨t, ht⟩
  · rw [if_neg h]
    simp only [List.find?_append]
    have hone : List.find? (fun tg => tg.name == n) [(⟨db.nextTagId, n⟩ : Tag)]
        = some ⟨db.nextTagId, n⟩ := by
      simp [List.find?]
    cases hfound : db.tagRows.find? (fun tg => tg.name == n) with
    | none => exact ⟨⟨db.nextTagId, n⟩, by simp [hfound, hone]⟩
    | some t => exact ⟨t, by simp [hfound]⟩

/-- The loop body resolves to: the store after the conditional insert, and
the found row appended to the accumulator. -/
theorem ensureTagStep_eq (acc : DB × List Tag) (n : String) :
    ∃ t, (insertTagIfAbsent acc.fst n).tagRows.find? (fun tg => tg.name == n) = some t ∧
      ensureTagStep acc n = (insertTagIfAbsent acc.fst n, acc.snd ++ [t]) := by
  obtain ⟨t, ht⟩ := insertTagIfAbsent_find acc.fst n
  refine ⟨t, ht, ?_⟩
  simp only [ensureTagStep]
  rw [ht]

/-- The conditional insert only appends rows, and only rows carrying the
inserted name. -/
theorem insertTagIfAbsent_tagRows (db : DB) (n : String) :
    ∃ rest, (insertTagIfAbsent db n).tagRows = db.tagRows ++ rest ∧
      ∀ t ∈ rest, t.name = n := by
  unfold insertTagIfAbsent
  by_cases h : db.tagRows.any (fun t => t.name == n)
  · exact ⟨[], by rw [if_pos h]; simp, by simp⟩
  · exact ⟨[⟨db.nextTagId, n⟩], by rw [if_neg h], by simp⟩

/-- The resolve loop only ever appends tag rows, and every appended row
carries one of the processed names. -/
theorem foldl_ensureTagStep_tagRows (u : List String) :
    ∀ acc : DB × List Tag,
      ∃ rest, (u.foldl ensureTagStep acc).fst.tagRows = acc.fst.tagRows ++ rest ∧
        ∀ t ∈ rest, t.name ∈ u := by
  induction u with
  | nil => exact fun acc => ⟨[], by simp, by simp⟩
  | cons n u ih =>
    intro acc
    obtain ⟨t, _, hstep⟩ := ensureTagStep_eq acc n
    obtain ⟨r1, hr1, hr1n⟩ := insertTagIfAbsent_tagRows acc.fst n
    obtain ⟨r2, hr2, hr2n⟩ := ih (ensureTagStep acc n)
    refine ⟨r1 ++ r2, ?_, ?_⟩
    · rw [List.foldl_cons] at *
      rw [hr2, hstep]
      simp only []
      rw [hr1, List.append_assoc]
    · intro x hx
      rcases List.mem_append.mp hx with hmem | hmem
      · rw [hr1n x hmem]; exact List.mem_cons_self n u
      · exact List.mem_cons_of_mem n (hr2n x hmem)

/-- When the name is already present the conditional insert is the
identity. -/
theorem insertTagIfAbsent_of_present (db : DB) (n : String)
    (h : db.tagRows.any (fun t => t.name == n) = true) :
    insertTagIfAbsent db n = db := by
  unfold insertTagIfAbsent
  rw [if_pos h]

/-- Resolving the same (deduplicated) name list twice changes nothing the
second time: the store is left as-is and the very same rows come back. -/
theorem foldl_ensureTagStep_idem (u : List String) :
    ∀ (db : DB) (ts : List Tag),
      u.foldl ensureTagStep ((u.foldl ensureTagStep (db, ts)).fst, ts)
        = u.foldl ensureTagStep (db, ts) := by
  induction u with
  | nil => intro db ts; simp
  | cons n u ih =>
    intro db ts
    obtain ⟨t₁, ht₁, hstep₁⟩ := ensureTagStep_eq (db, ts) n
    rw [List.foldl_cons, List.foldl_cons, hstep₁]
    obtain ⟨rest, hrest, _⟩ :=
      foldl_ensureTagStep_tagRows u (insertTagIfAbsent db n, ts ++ [t₁])
    have hpresent :
        (u.foldl ensureTagStep (insertTagIfAbsent db n, ts ++ [t₁])).fst.tagRows.find?
          (fun tg => tg.name == n) = some t₁ := by
      rw [hrest, List.find?_append, ht₁]
      rfl
    have hpred : (t₁.name == n) = true := by
      simpa using List.find?_some hpresent
    have hany :
        (u.foldl ensureTagStep (insertTagIfAbsent db n, ts ++ [t₁])).fst.tagRows.any
          (fun tg => tg.name == n) = true :=
      List.any_eq_true.mpr ⟨t₁, List.mem_of_find?_eq_some hpresent, hpred⟩
    have hins :
        insertTagIfAbsent
            (u.foldl ensureTagStep (insertTagIfAbsent db n, ts ++ [t₁])).fst n
          = (u.foldl ensureTagStep (insertTagIfAbsent db n, ts ++ [t₁])).fst :=
      insertTagIfAbsent_of_present _ n hany
    obtain ⟨t₂, ht₂, hstep₂⟩ :=
      ensureTagStep_eq
        ((u.foldl ensureTagStep (insertTagIfAbsent db n, ts ++ [t₁])).fst, ts) n
    rw [hins] at ht₂ hstep₂
    have ht₂₁ : t₂ = t₁ := by
      have := hpresent.symm.trans ht₂
      exact (Option.some_injective _ this).symm
    rw [hstep₂, ht₂₁]
    exact ih (insertTagIfAbsent db n) (ts ++ [t₁])

/-- C9: `ensure_tags` trims, lowercases, drops blank names and
deduplicates: `["SciFi","scifi","  ","SPACE"]` resolves to exactly the tag
set `{scifi, space}`; a later call with `["SCIFI"]` returns the very same
tag row (same identity, no duplicate row and an unchanged tag table), and
in general re-resolving any name list is idempotent on the store and on
the returned rows. -/
theorem ensure_tags_idempotent_case_insensitive :
    ((ensure_tags DB.empty ["SciFi", "scifi", "  ", "SPACE"]).snd.map Tag.name
      = ["scifi", "space"]) ∧
    ((ensure_tags (ensure_tags DB.empty ["SciFi", "scifi", "  ", "SPACE"]).fst
        ["SCIFI"]).snd
      = [(ensure_tags DB.empty ["SciFi", "scifi", "  ", "SPACE"]).snd.getD 0 ⟨0, ""⟩]) ∧
    ((ensure_tags (ensure_tags DB.empty ["SciFi", "scifi", "  ", "SPACE"]).fst
        ["SCIFI"]).fst.tagRows
      = (ensure_tags DB.empty ["SciFi", "scifi", "  ", "SPACE"]).fst.tagRows) ∧
    (∀ (db : DB) (names : List String),
      ensure_tags (ensure_tags db names).fst names = ensure_tags db names) :=
  ⟨rfl, rfl, rfl, fun db _names => foldl_ensureTagStep_idem _ db []⟩

/-- `Except.ok` followed by bind runs the continuation. -/
theorem exceptOkBind {ε α β : Type} (a : α) (f : α → Except ε β) :
    (Except.ok a >>= f) = f a := rfl

/-- `Except.error` followed by bind stays the error. -/
theorem exceptErrBind {ε α β : Type} (e : ε) (f : α → Except ε β) :
    ((Except.error e : Except ε α) >>= f) = Except.error e := rfl

/-! ### Video creation requires a thumbnail (C4) -/

/-- No extension of the §6 video allowlist is in the image-only
`ALLOWED_EXTENSIONS` of `files.py`. -/
theorem video_ext_not_image (s : String)
    (h : (allowed_extensions_for MediaType.video).contains s = true) :
    ALLOWED_EXTENSIONS.contains s = false := by
  have hs : s = ".mp4" ∨ s = ".mov" ∨ s = ".webm" ∨ s = ".mkv" := by
    simpa only [allowed_extensions_for, List.contains_cons, List.contains_nil,
      Bool.or_eq_true, beq_iff_eq, Bool.false_eq_true, or_false] using h
  rcases hs with h1 | h1 | h1 | h1 <;> subst h1 <;> rfl

/-- C4: the refusal half of the rule holds — a VIDEO creation without a
thumbnail upload fails with the missing-thumbnail error before anything is
stored — but the success half is false in the code: `files.save_upload`
re-checks every upload against the image-only `ALLOWED_EXTENSIONS`, so the
very request the rule is meant to admit (a conforming video upload plus a
thumbnail) is rejected with `unsupported file extension`, and no request
with `media_type = "video"` can ever persist a record. -/
theorem create_video_thumbnail_rule :
    (∀ (db : DB) (promptText newId freshM freshT : String) (now : Nat)
        (mediaFile : UploadFile),
      create_image_endpoint db mediaFile promptText [] none (some "video")
          none none none Json.null none freshM freshT newId now
        = Except.error "Video uploads require a thumbnail_file.") ∧
    (∀ (db : DB) (promptText newId freshM freshT : String) (now : Nat),
      create_image_endpoint db ⟨"clip.mp4", "video/mp4"⟩ promptText [] none
          (some "video") none none none Json.null
          (some ⟨"thumb.png", "image/png"⟩) freshM freshT newId now
        = Except.error "unsupported file extension") ∧
    (∀ (db : DB) (mediaFile : UploadFile) (promptText : String)
        (tags : List String) (rating : Option ℚ) (aiModel notes : Option String)
        (capturedAt : Option Int) (promptMeta : Json)
        (thumbnailUpload : Option UploadFile)
        (freshM freshT newId : String) (now : Nat),
      ∃ msg, create_image_endpoint db mediaFile promptText tags rating
          (some "video") aiModel notes capturedAt promptMeta thumbnailUpload
          freshM freshT newId now = Except.error msg) := by
  refine ⟨?_, ?_, ?_⟩
  · intro db promptText newId freshM freshT now mediaFile
    rfl
  · intro db promptText newId freshM freshT now
    rfl
  · intro db mediaFile promptText tags rating aiModel notes capturedAt promptMeta
      thumbnailUpload freshM freshT newId now
    have h1 : parse_media_type (some "video") = Except.ok MediaType.video := rfl
    simp only [create_image_endpoint, h1, exceptOkBind]
    cases thumbnailUpload with
    | none => exact ⟨_, rfl⟩
    | some t =>
      have h2 : require_thumbnail_if_video MediaType.video (some t)
          = Except.ok () := rfl
      simp only [h2, exceptOkBind]
      by_cases hgate : is_allowed_upload mediaFile MediaType.video = true
      · have hext : (allowed_extensions_for MediaType.video).contains
            (pyLower (pathSuffix mediaFile.filename)) = true :=
          (Bool.and_eq_true _ _ ▸ hgate).1
        have hno := video_ext_not_image _ hext
        have hcond : ¬ (ALLOWED_EXTENSIONS.contains
            (pyLower (pathSuffix mediaFile.filename)) = true) := by
          rw [hno]
          exact Bool.false_ne_true
        simp only [store_upload_or_400]
        rw [if_pos hgate]
        simp only [save_upload]
        rw [if_neg hcond, exceptErrBind]
        exact ⟨_, rfl⟩
      · simp only [store_upload_or_400]
        rw [if_neg hgate, exceptErrBind]
        exact ⟨_, rfl⟩

/-! ### Deletion survives file-cleanup failures (C6) -/

/-- C6: for every existing record, `delete_image` succeeds and removes the
record together with its tag-link rows, whatever the file-cleanup error
oracle does — a cleanup failure never propagates out of the delete. -/
theorem delete_removes_record_despite_cleanup_failure
    (db : DB) (fs : List String) (fsFail : String → Bool) (imageId : String)
    (img : Image) (h : get_image db imageId = Except.ok img) :
    ∃ db1 fs1, delete_image db fs fsFail imageId = Except.ok (db1, fs1) ∧
      db1.images = db.images.filter (fun i => !(i.id == imageId)) ∧
      db1.linkRows = db.linkRows.filter (fun l => !(l.fst == imageId)) ∧
      get_image db1 imageId = Except.error "Image not found" := by
  refine ⟨{ db with images := db.images.filter (fun i => !(i.id == imageId))
                    linkRows := db.linkRows.filter (fun l => !(l.fst == imageId)) },
          delete_media_files fs fsFail img.file_name img.thumbnail_file,
          ?_, rfl, rfl, ?_⟩
  · simp only [delete_image, h]
    rfl
  · unfold get_image
    have hnone :
        (db.images.filter (fun i => !(i.id == imageId))).find?
          (fun i => i.id == imageId) = none := by
      rw [List.find?_eq_none]
      intro x hx
      have := (List.mem_filter.mp hx).2
      simp only [Bool.not_eq_true'] at this
      simp [this]
    rw [hnone]

/-- Witness for C6: deleting the only record of a one-record store
succeeds and empties it even when every file deletion fails. -/
theorem delete_cleanup_failure_witness :
    ∃ db1 fs1,
      delete_image
          ⟨[{ id := "i1", file_name := "a.png", media_type := MediaType.image
              prompt_text := "p", prompt_meta := Json.null, ai_model := none
              notes := none, rating := none, thumbnail_file := some "t.png"
              captured_at := none, created_at := 0, updated_at := 0 }],
            [⟨0, "scifi"⟩], [("i1", 0)], 1⟩
          ["a.png", "t.png"] (fun _ => true) "i1"
        = Except.ok (db1, fs1) ∧
      db1.images = [] ∧
      db1.linkRows = [] ∧
      get_image db1 "i1" = Except.error "Image not found" := by
  obtain ⟨db1, fs1, h1, h2, h3, h4⟩ :=
    delete_removes_record_despite_cleanup_failure
      ⟨[{ id := "i1", file_name := "a.png", media_type := MediaType.image
          prompt_text := "p", prompt_meta := Json.null, ai_model := none
          notes := none, rating := none, thumbnail_file := some "t.png"
          captured_at := none, created_at := 0, updated_at := 0 }],
        [⟨0, "scifi"⟩], [("i1", 0)], 1⟩
      ["a.png", "t.png"] (fun _ => true) "i1"
      { id := "i1", file_name := "a.png", media_type := MediaType.image
        prompt_text := "p", prompt_meta := Json.null, ai_model := none
        notes := none, rating := none, thumbnail_file := some "t.png"
        captured_at := none, created_at := 0, updated_at := 0 } rfl
  refine ⟨db1, fs1, h1, ?_, ?_, h4⟩
  · rw [h2]; rfl
  · rw [h3]; rfl

/-! ### Partial update semantics (C7) -/

/-- The Boolean guard of the video/thumbnail re-check inside
`_validate_and_normalize_updates`, on the merged candidate. -/
def videoGuard (image : Image) (u : ImageUpdate) : Bool :=
  (u.media_type.isSome || u.thumbnail_file.isSome) &&
    (u.media_type.getD image.media_type == MediaType.video) &&
    !(optStrTruthy (u.thumbnail_file.getD image.thumbnail_file))

/-- Characterization of a successful `_validate_and_normalize_updates`:
the merged candidate passed `ImageValidator`, the validated values were
written back into the present fields, and the video/thumbnail guard did
not fire. -/
theorem validate_updates_spec (image : Image) (u u1 : ImageUpdate)
    (h : validate_and_normalize_updates image u = Except.ok u1) :
    (∃ v, imageValidator (u.prompt_meta.getD image.prompt_meta)
        (u.rating.getD image.rating) = Except.ok v ∧
      u1 = { u with prompt_meta := u.prompt_meta.map (fun _ => v.prompt_meta)
                    rating := u.rating.map (fun _ => v.rating) }) ∧
    videoGuard image u = false := by
  simp only [validate_and_normalize_updates] at h
  cases hv : imageValidator (u.prompt_meta.getD image.prompt_meta)
      (u.rating.getD image.rating) with
  | error e =>
    rw [hv] at h
    exact absurd h (by simp [exceptErrBind])
  | ok v =>
    rw [hv] at h
    simp only [exceptOkBind] at h
    by_cases hg : videoGuard image u = true
    · rw [if_pos (by simpa only [videoGuard] using hg)] at h
      exact absurd h (by simp)
    · have hg' : videoGuard image u = false := by simpa using hg
      rw [if_neg (by simpa only [videoGuard] using hg)] at h
      have h' := Except.ok.inj h
      exact ⟨⟨v, rfl, h'.symm⟩, hg'⟩

/-- C7: for an existing record, a successful partial update sets
`updated_at` to the current instant and leaves every field that is absent
from the payload at its previous value; whenever any of {prompt_meta,
rating, media_type, thumbnail_file} is present, the merged candidate
passed `ImageValidator` and the video/thumbnail guard; and when neither
`media_type` nor `thumbnail_file` is part of the payload the video rule is
not re-checked at all: the update succeeds as soon as the merged candidate
validates, even on a video record with no thumbnail. -/
theorem update_partial_semantics
    (db : DB) (imageId : String) (u : ImageUpdate) (now : Nat) (img0 : Image)
    (h : get_image db imageId = Except.ok img0) :
    (∀ db1 img1, update_image db imageId u now = Except.ok (db1, img1) →
      img1.updated_at = now ∧
      (u.prompt_text = none → img1.prompt_text = img0.prompt_text) ∧
      (u.prompt_meta = none → img1.prompt_meta = img0.prompt_meta) ∧
      (u.ai_model = none → img1.ai_model = img0.ai_model) ∧
      (u.notes = none → img1.notes = img0.notes) ∧
      (u.rating = none → img1.rating = img0.rating) ∧
      (u.media_type = none → img1.media_type = img0.media_type) ∧
      (u.thumbnail_file = none → img1.thumbnail_file = img0.thumbnail_file) ∧
      (u.captured_at = none → img1.captured_at = img0.captured_at) ∧
      ((u.prompt_meta.isSome || u.rating.isSome || u.media_type.isSome ||
          u.thumbnail_file.isSome) = true →
        (∃ v, imageValidator (u.prompt_meta.getD img0.prompt_meta)
          (u.rating.getD img0.rating) = Except.ok v) ∧
        videoGuard img0 u = false)) ∧
    (u.media_type = none → u.thumbnail_file = none →
      (∃ v, imageValidator (u.prompt_meta.getD img0.prompt_meta)
        (u.rating.getD img0.rating) = Except.ok v) →
      ∃ db1 img1, update_image db imageId u now = Except.ok (db1, img1)) := by
  constructor
  · intro db1 img1 hok
    unfold update_image at hok
    rw [h, exceptOkBind] at hok
    by_cases hc : (u.prompt_meta.isSome || u.rating.isSome || u.media_type.isSome ||
        u.thumbnail_file.isSome) = true
    · rw [if_pos hc] at hok
      cases hv : validate_and_normalize_updates img0 u with
      | error e =>
        rw [hv, exceptErrBind] at hok
        exact absurd hok (by simp)
      | ok u1 =>
        rw [hv, exceptOkBind] at hok
        obtain ⟨⟨v, hval, hu1⟩, hguard⟩ := validate_updates_spec img0 u u1 hv
        have himg : img1 = { img0 with
            prompt_text := u1.prompt_text.getD img0.prompt_text
            prompt_meta := u1.prompt_meta.getD img0.prompt_meta
            ai_model := u1.ai_model.getD img0.ai_model
            notes := u1.notes.getD img0.notes
            rating := u1.rating.getD img0.rating
            media_type := u1.media_type.getD img0.media_type
            thumbnail_file := u1.thumbnail_file.getD img0.thumbnail_file
            captured_at := u1.captured_at.getD img0.captured_at
            updated_at := now } := by
          have h' := Except.ok.inj hok
          exact (congrArg Prod.snd h').symm
        subst himg hu1
        refine ⟨rfl, ?_, ?_, ?_, ?_, ?_, ?_, ?_, ?_, fun _ => ⟨⟨v, hval⟩, hguard⟩⟩
        all_goals intro hx
        all_goals simp [hx]
    · rw [if_neg hc, exceptOkBind] at hok
      have hpm : u.prompt_meta = none := by
        cases hpm : u.prompt_meta <;> simp [hpm] at hc ⊢
      have hr : u.rating = none := by
        cases hr : u.rating <;> simp [hr] at hc ⊢
      have hmt : u.media_type = none := by
        cases hmt : u.media_type <;> simp [hmt] at hc ⊢
      have htf : u.thumbnail_file = none := by
        cases htf : u.thumbnail_file <;> simp [htf] at hc ⊢
      have himg : img1 = { img0 with
          prompt_text := u.prompt_text.getD img0.prompt_text
          prompt_meta := u.prompt_meta.getD img0.prompt_meta
          ai_model := u.ai_model.getD img0.ai_model
          notes := u.notes.getD img0.notes
          rating := u.rating.getD img0.rating
          media_type := u.media_type.getD img0.media_type
          thumbnail_file := u.thumbnail_file.getD img0.thumbnail_file
          captured_at := u.captured_at.getD img0.captured_at
          updated_at := now } := by
        have h' := Except.ok.inj hok
        exact (congrArg Prod.snd h').symm
      subst himg
      refine ⟨rfl, ?_, ?_, ?_, ?_, ?_, ?_, ?_, ?_, fun hcc => absurd hcc hc⟩
      all_goals intro hx
      all_goals simp [hx]
  · intro hmt htf hval
    obtain ⟨v, hv⟩ := hval
    unfold update_image
    rw [h, exceptOkBind]
    by_cases hc : (u.prompt_meta.isSome || u.rating.isSome || u.media_type.isSome ||
        u.thumbnail_file.isSome) = true
    · rw [if_pos hc]
      have hv' : validate_and_normalize_updates img0 u = Except.ok
          { u with prompt_meta := u.prompt_meta.map (fun _ => v.prompt_meta)
                   rating := u.rating.map (fun _ => v.rating) } := by
        simp only [validate_and_normalize_updates]
        rw [hv]
        simp only [exceptOkBind]
        rw [if_neg (by simp [hmt, htf])]
      rw [hv', exceptOkBind]
      exact ⟨_, _, rfl⟩
    · rw [if_neg hc, exceptOkBind]
      exact ⟨_, _, rfl⟩

/-! ### AND semantics of the tag filter (C8) -/

/-- Inserting into a sorted list is a permutation of consing. -/
theorem insertSorted_perm (x : String) :
    ∀ l : List String, (insertSorted x l).Perm (x :: l)
  | [] => List.Perm.refl _
  | y :: ys => by
    unfold insertSorted
    by_cases h : strLeB x y = true
    · rw [if_pos h]
    · rw [if_neg h]
      exact ((insertSorted_perm x ys).cons y).trans (List.Perm.swap x y ys)

/-- The insertion sort permutes its input. -/
theorem sortStrings_perm : ∀ l : List String, (sortStrings l).Perm l
  | [] => List.Perm.refl _
  | a :: l => ((insertSorted_perm a (sortStrings l)).trans
      ((sortStrings_perm l).cons a))

/-- The normalized tag list of `_normalized_tags` has no duplicates. -/
theorem crudNormalizedTags_nodup (ts : List String) :
    (crudNormalizedTags ts).Nodup := by
  unfold crudNormalizedTags pyUniqueSorted
  exact (sortStrings_perm _).symm.nodup (List.nodup_dedup _)

/-- SQL `COUNT(DISTINCT matched) = COUNT(requested)` says exactly that
every requested tag is matched: the grouped-count trick of
`_apply_filters` is AND semantics. -/
theorem count_distinct_eq_iff (l r : List String) (hr : r.Nodup) :
    (((l.filter (fun n => r.contains n)).toFinset.card = r.length) ↔
      ∀ t ∈ r, t ∈ l) := by
  have hsub : (l.filter (fun n => r.contains n)).toFinset ⊆ r.toFinset := by
    intro t ht
    rw [List.mem_toFinset, List.mem_filter] at ht
    rw [List.mem_toFinset]
    exact List.mem_of_elem_eq_true ht.2
  have hrcard : r.toFinset.card = r.length := by
    rw [List.card_toFinset, hr.dedup]
  constructor
  · intro hcard t htr
    have heq : (l.filter (fun n => r.contains n)).toFinset = r.toFinset :=
      Finset.eq_of_subset_of_card_le hsub (by rw [hrcard, hcard])
    have : t ∈ (l.filter (fun n => r.contains n)).toFinset := by
      rw [heq, List.mem_toFinset]; exact htr
    rw [List.mem_toFinset, List.mem_filter] at this
    exact this.1
  · intro hall
    have heq : (l.filter (fun n => r.contains n)).toFinset = r.toFinset := by
      apply Finset.Subset.antisymm hsub
      intro t ht
      rw [List.mem_toFinset] at ht
      rw [List.mem_toFinset, List.mem_filter]
      exact ⟨hall t ht, List.elem_eq_true_of_mem ht⟩
    rw [heq, hrcard]

/-- C8: with a tag filter, the filtered row set contains exactly the
records that carry every requested normalized tag (AND semantics); in a
concrete store, a record linked only to tag `"a"` is excluded by
`tags=["a","b"]` but returned by `tags=["a"]`. -/
theorem list_tag_filter_and_semantics :
    (∀ (db : DB) (ts : List String) (img : Image),
      img ∈ applyFilters db (tagOnlyFilters ts) ↔
        img ∈ db.images ∧
          ∀ t ∈ crudNormalizedTags ts, t ∈ imageTagNames db img.id) ∧
    ((list_images
        ⟨[{ id := "r1", file_name := "f.png", media_type := MediaType.image
            prompt_text := "p", prompt_meta := Json.null, ai_model := none
            notes := none, rating := none, thumbnail_file := none
            captured_at := none, created_at := 0, updated_at := 0 }],
          [⟨0, "a"⟩, ⟨1, "b"⟩], [("r1", 0)], 2⟩
        (tagOnlyFilters ["a", "b"])).fst = []) ∧
    ((list_images
        ⟨[{ id := "r1", file_name := "f.png", media_type := MediaType.image
            prompt_text := "p", prompt_meta := Json.null, ai_model := none
            notes := none, rating := none, thumbnail_file := none
            captured_at := none, created_at := 0, updated_at := 0 }],
          [⟨0, "a"⟩, ⟨1, "b"⟩], [("r1", 0)], 2⟩
        (tagOnlyFilters ["a"])).fst
      = [{ id := "r1", file_name := "f.png", media_type := MediaType.image
           prompt_text := "p", prompt_meta := Json.null, ai_model := none
           notes := none, rating := none, thumbnail_file := none
           captured_at := none, created_at := 0, updated_at := 0 }]) := by
  refine ⟨?_, by rfl, by rfl⟩
  intro db ts img
  unfold applyFilters
  rw [List.mem_filter]
  constructor
  · rintro ⟨hmem, hrow⟩
    refine ⟨hmem, ?_⟩
    simp only [rowMatchesFilters, tagOnlyFilters, normalizedQ] at hrow
    rcases Bool.and_eq_true _ _ ▸ hrow with ⟨hrest, _⟩
    rcases Bool.and_eq_true _ _ ▸ hrest with ⟨_, htag⟩
    rcases Bool.or_eq_true _ _ ▸ htag with hemp | hmatch
    · intro t ht
      rw [List.isEmpty_iff.mp hemp] at ht
      exact absurd ht (List.not_mem_nil t)
    · have hm : ((imageTagNames db img.id).filter
          (fun n => (crudNormalizedTags ts).contains n)).toFinset.card
          = (crudNormalizedTags ts).length := by
        simpa [matchesTagFilter] using hmatch
      exact (count_distinct_eq_iff (imageTagNames db img.id)
        (crudNormalizedTags ts) (crudNormalizedTags_nodup ts)).mp hm
  · rintro ⟨hmem, hall⟩
    refine ⟨hmem, ?_⟩
    simp only [rowMatchesFilters, tagOnlyFilters, normalizedQ]
    have hmatch : matchesTagFilter db (crudNormalizedTags ts) img.id = true := by
      unfold matchesTagFilter
      exact Nat.beq_eq_true_eq _ _ ▸
        ((count_distinct_eq_iff (imageTagNames db img.id)
          (crudNormalizedTags ts) (crudNormalizedTags_nodup ts)).mpr hall)
    simp [hmatch]

/-- Witness for C7: updating only the notes of a video record that has no
thumbnail succeeds (the video rule is not re-checked), keeps every other
field, and stamps `updated_at` with the new clock value. -/
theorem update_partial_semantics_witness :
    (∃ db1 img1,
      update_image
          ⟨[{ id := "v1", file_name := "clip.png", media_type := MediaType.video
              prompt_text := "p", prompt_meta := Json.null, ai_model := none
              notes := none, rating := none, thumbnail_file := none
              captured_at := none, created_at := 0, updated_at := 3 }], [], [], 0⟩
          "v1" { notes := some (some "n") } 7
        = Except.ok (db1, img1)) ∧
    (∀ db1 img1,
      update_image
          ⟨[{ id := "v1", file_name := "clip.png", media_type := MediaType.video
              prompt_text := "p", prompt_meta := Json.null, ai_model := none
              notes := none, rating := none, thumbnail_file := none
              captured_at := none, created_at := 0, updated_at := 3 }], [], [], 0⟩
          "v1" { notes := some (some "n") } 7
        = Except.ok (db1, img1) →
      img1.updated_at = 7 ∧ img1.prompt_text = "p" ∧
        img1.media_type = MediaType.video) := by
  have hmain := update_partial_semantics
    ⟨[{ id := "v1", file_name := "clip.png", media_type := MediaType.video
        prompt_text := "p", prompt_meta := Json.null, ai_model := none
        notes := none, rating := none, thumbnail_file := none
        captured_at := none, created_at := 0, updated_at := 3 }], [], [], 0⟩
    "v1" { notes := some (some "n") } 7
    { id := "v1", file_name := "clip.png", media_type := MediaType.video
      prompt_text := "p", prompt_meta := Json.null, ai_model := none
      notes := none, rating := none, thumbnail_file := none
      captured_at := none, created_at := 0, updated_at := 3 } rfl
  constructor
  · exact hmain.2 rfl rfl ⟨⟨Json.null, none⟩, rfl⟩
  · intro db1 img1 hok
    obtain ⟨hbump, _, hpmk, _, _, _, hmtk, _, _, _⟩ := hmain.1 db1 img1 hok
    have h1 := hmain.1 db1 img1 hok
    exact ⟨hbump, by
      have := h1.2.1 rfl
      simpa using this, by
      have := h1.2.2.2.2.2.2.1 rfl
      simpa using this⟩

/-! ### Importer: video extension gate (C3) -/

/-- C3: the per-entry converter does accept a VIDEO entry exactly under
the relaxed rule (with a thumbnail, or with a reference; with neither it
fails with the missing-thumbnail-or-reference error), but the batch loop
then rejects every genuine video file: the managed extension allowlist
holds only image extensions, so an `.mp4` entry that passed conversion
aborts the whole import with `Unsupported legacy file extension: .mp4`
instead of being inserted. -/
theorem import_rejects_video_extensions :
    (∃ c, convert_entry
        { file := "clip.mp4", prompt := Json.str "p"
          thumbnail_file := some "thumb.png" } = Except.ok c) ∧
    convert_entry { file := "clip.mp4", prompt := Json.str "p" }
      = Except.error
          "Video entries must include a thumbnail_file or reference another asset" ∧
    (∃ c, convert_entry
        { file := "clip.mp4"
          prompt := Json.arr [refObj "base", Json.str "t"] } = Except.ok c) ∧
    import_entries DB.empty [] ["clip.mp4", "thumb.png"]
        [{ file := "clip.mp4", prompt := Json.str "p"
           thumbnail_file := some "thumb.png" }] false 0
      = Except.error "Unsupported legacy file extension: .mp4" :=
  ⟨⟨_, rfl⟩, rfl, ⟨_, rfl⟩, rfl⟩

/-! ### Importer: reference remapping and thumbnail backfill (C2) -/

/-- C2: a non-dry-run import of a batch where entry D's prompt list
references legacy id `"base"` declared by entry B: D's persisted prompt
metadata is the reference list with the unknown reference dropped without
error, its first element's id equal to B's newly generated record id and
the original trailing prompt text kept; D (which declared no thumbnail)
inherits B's thumbnail file, and — second batch — falls back to B's file
name when B has no thumbnail of its own. -/
theorem import_remaps_reference_and_backfills_thumbnail :
    (∃ db1 store1 imgB imgD,
      import_entries DB.empty [] ["b.png", "b-thumb.png", "d.png"]
          [{ file := "b.png", prompt := Json.str "base prompt"
             thumbnail_file := some "b-thumb.png", id := some "base" },
           { file := "d.png"
             prompt := Json.arr [refObj "missing", refObj "base", Json.str "derived text"]
             id := some "dep" }] false 0
        = Except.ok (db1, store1) ∧
      db1.images = [imgB, imgD] ∧
      imgD.prompt_meta
        = Json.arr [Json.obj [("id", Json.str imgB.id)], Json.str "derived text"] ∧
      imgD.prompt_text = "derived text" ∧
      imgD.thumbnail_file = imgB.thumbnail_file ∧
      imgB.thumbnail_file = some "b-thumb.png") ∧
    (∃ db1 store1 imgB imgD,
      import_entries DB.empty [] ["b.png", "d.png"]
          [{ file := "b.png", prompt := Json.str "base prompt", id := some "base" },
           { file := "d.png"
             prompt := Json.arr [refObj "missing", refObj "base", Json.str "derived text"]
             id := some "dep" }] false 0
        = Except.ok (db1, store1) ∧
      db1.images = [imgB, imgD] ∧
      imgD.prompt_meta
        = Json.arr [Json.obj [("id", Json.str imgB.id)], Json.str "derived text"] ∧
      imgB.thumbnail_file = none ∧
      imgD.thumbnail_file = some imgB.file_name ∧
      imgB.file_name = "b.png") := by
  constructor
  · exact ⟨_, _, _, _, rfl, rfl, rfl, rfl, rfl, rfl⟩
  · exact ⟨_, _, _, _, rfl, rfl, rfl, rfl, rfl, rfl⟩

/-! ### Phase-2 thumbnail propagation (C5) -/

/-- The first row matching the legacy id in the rewritten lookup list
carries the replacement thumbnail. -/
theorem find?_setThumb_map (lid : String) (rep : Option String) :
    ∀ lk : List (String × LookupEntry),
      lk.any (fun p => p.fst == lid) = true →
      ∃ e, (lk.map (fun p => if p.fst == lid then
            (lid, { p.snd with thumbnailFile := rep }) else p)).find?
          (fun p => p.fst == lid) = some (lid, e) ∧ e.thumbnailFile = rep
  | [], h => by simp at h
  | p :: rest, h => by
    by_cases hp : (p.fst == lid) = true
    · refine ⟨{ p.snd with thumbnailFile := rep }, ?_, rfl⟩
      simp only [List.map_cons, hp, if_true]
      exact List.find?_cons_of_pos _ (by simp)
    · have hrest : rest.any (fun q => q.fst == lid) = true := by
        rcases List.any_eq_true.mp h with ⟨q, hq, hq2⟩
        rcases List.mem_cons.mp hq with rfl | hqr
        · exact absurd hq2 hp
        · exact List.any_eq_true.mpr ⟨q, hqr, hq2⟩
      obtain ⟨e, he, he2⟩ := find?_setThumb_map lid rep rest hrest
      refine ⟨e, ?_, he2⟩
      simp only [List.map_cons, hp, if_false, Bool.false_eq_true]
      rw [List.find?_cons_of_neg _ (by simp [hp])]
      exact he

/-- After the `setdefault(...)["thumbnail_file"] = replacement` write, the
lookup entry for the legacy id carries the replacement. -/
theorem lookupGet_setLookupThumb (lk : List (String × LookupEntry))
    (lid iid fn : String) (rep : Option String) :
    ∃ e, lookupGet (setLookupThumb lk lid iid fn rep) lid = some e ∧
      e.thumbnailFile = rep := by
  unfold setLookupThumb
  by_cases h : lk.any (fun p => p.fst == lid)
  · rw [if_pos h]
    obtain ⟨e, he, he2⟩ := find?_setThumb_map lid rep lk h
    refine ⟨e, ?_, he2⟩
    unfold lookupGet
    rw [he]
    rfl
  · rw [if_neg h]
    refine ⟨⟨iid, fn, rep⟩, ?_, rfl⟩
    unfold lookupGet
    rw [List.find?_append]
    have hnone : lk.find? (fun p => p.fst == lid) = none := by
      rw [List.find?_eq_none]
      intro x hx hpx
      exact h (List.any_eq_true.mpr ⟨x, hx, hpx⟩)
    rw [hnone]
    simp [List.find?]

/-- C5 (amended): one phase-2 step for a record with a declared legacy id
and no explicit thumbnail rewrites the record's row, inherits the first
resolved source's thumbnail (or file name), and writes that inherited
value into the legacy-id lookup entry — so any record processed later in
the pass that resolves this legacy id reads it from the table; the same
inheritance clause, instantiated at the later record, is what "seeing"
the propagated thumbnail means. -/
theorem apply_reference_update_inherits_and_propagates
    (images : List Image) (lookup : List (String × LookupEntry))
    (record : ImportedRecord) (image : Image) (firstSrc : LookupEntry) (lid : String)
    (hfind : images.find? (fun i => i.id == record.image_id) = some image)
    (href : record.reference_dicts.isEmpty = false)
    (hupd : (resolveRefs lookup record.reference_dicts).updatedRefs.isEmpty = false)
    (hfs : (resolveRefs lookup record.reference_dicts).firstSource = some firstSrc)
    (hnothumb : record.has_explicit_thumbnail = false)
    (hlid : record.legacy_id = some lid)
    (hlidne : (lid != "") = true)
    (htruthy : optStrTruthy (thumbnailOrFileName firstSrc) = true) :
    (∃ image2,
      (applyOneReferenceUpdate (images, lookup) record).fst
        = images.map (fun i => if i.id == record.image_id then image2 else i) ∧
      image2.thumbnail_file = thumbnailOrFileName firstSrc ∧
      image2.prompt_meta = Json.arr
        ((resolveRefs lookup record.reference_dicts).updatedRefs.map Json.obj
          ++ [Json.str image.prompt_text])) ∧
    (∃ e, lookupGet (applyOneReferenceUpdate (images, lookup) record).snd lid
        = some e ∧
      e.thumbnailFile = thumbnailOrFileName firstSrc) := by
  have hres : applyOneReferenceUpdate (images, lookup) record
      = (images.map (fun i => if i.id == record.image_id then
            { image with
              prompt_meta := Json.arr
                ((resolveRefs lookup record.reference_dicts).updatedRefs.map Json.obj
                  ++ [Json.str image.prompt_text])
              thumbnail_file := thumbnailOrFileName firstSrc } else i),
         setLookupThumb lookup lid record.image_id image.file_name
           (thumbnailOrFileName firstSrc)) := by
    simp only [applyOneReferenceUpdate, href, hfind, hupd, hfs, hnothumb, hlid,
      hlidne, htruthy, Bool.false_eq_true, if_false, Bool.not_false, if_true,
      Bool.and_self]
  rw [hres]
  refine ⟨⟨_, rfl, rfl, rfl⟩, ?_⟩
  exact lookupGet_setLookupThumb lookup lid record.image_id image.file_name
    (thumbnailOrFileName firstSrc)

/-- Counterexample to C5 as stated: in the batch `[A, B, C]` — `C` with an
explicit thumbnail and legacy id `"c"`, `B` referencing `"c"` with no
thumbnail and legacy id `"b"`, `A` referencing `"b"` with no thumbnail —
`B` inherits the resolved thumbnail `c-thumb.png` and writes it into the
lookup table, yet `A`, an imported record of the same batch whose prompt
references `B`'s legacy id, ends up with `B`'s file name `b.png` instead:
`A` was processed before `B` in the phase-2 pass, so "any other imported
record in the batch … sees the resolved thumbnail" is false. -/
theorem thumbnail_propagation_not_batch_global :
    ∃ db1 store1 imgA imgB imgC,
      import_entries DB.empty [] ["a.png", "b.png", "c.png", "c-thumb.png"]
          [{ file := "a.png", prompt := Json.arr [refObj "b", Json.str "a text"]
             id := some "a" },
           { file := "b.png", prompt := Json.arr [refObj "c", Json.str "b text"]
             id := some "b" },
           { file := "c.png", prompt := Json.str "c prompt"
             thumbnail_file := some "c-thumb.png", id := some "c" }]
          false 0
        = Except.ok (db1, store1) ∧
      db1.images = [imgA, imgB, imgC] ∧
      imgB.thumbnail_file = some "c-thumb.png" ∧
      imgA.thumbnail_file = some "b.png" ∧
      imgA.thumbnail_file ≠ imgB.thumbnail_file := by
  refine ⟨_, _, _, _, _, rfl, rfl, rfl, rfl, by decide⟩

/-- Witness for the amended C5: a concrete phase-2 step where the record
with legacy id `"b"` inherits `c-thumb.png` from its resolved reference,
and the lookup entry for `"b"` afterwards carries that thumbnail for later
readers. -/
theorem apply_reference_update_propagates_witness :
    ∃ e, lookupGet
        (applyOneReferenceUpdate
          ([{ id := "rec-1", file_name := "b.png", media_type := MediaType.image
              prompt_text := "b text"
              prompt_meta := Json.arr [refObj "c", Json.str "b text"]
              ai_model := none, notes := none, rating := none
              thumbnail_file := none, captured_at := none
              created_at := 0, updated_at := 0 }],
            [("c", ⟨"rec-2", "c.png", some "c-thumb.png"⟩),
             ("b", ⟨"rec-1", "b.png", none⟩)])
          ⟨"rec-1", some "b", [[("id", Json.str "c")]], false, MediaType.image⟩).snd
        "b"
      = some e ∧ e.thumbnailFile = some "c-thumb.png" := by
  have h := apply_reference_update_inherits_and_propagates
    [{ id := "rec-1", file_name := "b.png", media_type := MediaType.image
       prompt_text := "b text"
       prompt_meta := Json.arr [refObj "c", Json.str "b text"]
       ai_model := none, notes := none, rating := none
       thumbnail_file := none, captured_at := none
       created_at := 0, updated_at := 0 }]
    [("c", ⟨"rec-2", "c.png", some "c-thumb.png"⟩),
     ("b", ⟨"rec-1", "b.png", none⟩)]
    ⟨"rec-1", some "b", [[("id", Json.str "c")]], false, MediaType.image⟩
    { id := "rec-1", file_name := "b.png", media_type := MediaType.image
      prompt_text := "b text"
      prompt_meta := Json.arr [refObj "c", Json.str "b text"]
      ai_model := none, notes := none, rating := none
      thumbnail_file := none, captured_at := none
      created_at := 0, updated_at := 0 }
    ⟨"rec-2", "c.png", some "c-thumb.png"⟩ "b"
    rfl rfl rfl rfl rfl rfl rfl rfl
  exact h.2

/-! ### Persisted-record invariants (C10) -/

/-- A successful structural validation returns its input unchanged. -/
theorem validate_ok_eq (v w : Json)
    (h : validate_prompt_meta_structure v = Except.ok w) : w = v := by
  cases v with
  | null => exact (Except.ok.inj h).symm
  | str s => exact (Except.ok.inj h).symm
  | obj kvs => exact (Except.ok.inj h).symm
  | bool b => exact absurd h (by simp [validate_prompt_meta_structure])
  | num q => exact absurd h (by simp [validate_prompt_meta_structure])
  | arr xs =>
    simp only [validate_prompt_meta_structure] at h
    cases hl : xs.getLast? with
    | none =>
      rw [hl] at h
      exact absurd h (by simp)
    | some lastVal =>
      rw [hl] at h
      cases lastVal with
      | str s =>
        cases hc : checkReferences xs.dropLast with
        | error e =>
          rw [hc, exceptErrBind] at h
          exact absurd h (by simp)
        | ok u =>
          rw [hc, exceptOkBind] at h
          exact (Except.ok.inj h).symm
      | null => exact absurd h (by simp)
      | bool b => exact absurd h (by simp)
      | num q => exact absurd h (by simp)
      | arr ys => exact absurd h (by simp)
      | obj kvs => exact absurd h (by simp)

/-- A reference-list check that succeeds certifies every element. -/
theorem checkReferences_mem : ∀ (l : List Json) (r : Json),
    checkReferences l = Except.ok () → r ∈ l → checkReference r = Except.ok ()
  | [], r, _, hr => absurd hr (List.not_mem_nil r)
  | x :: xs, r, h, hr => by
    unfold checkReferences at h
    cases hx : checkReference x with
    | error e =>
      rw [hx, exceptErrBind] at h
      exact absurd h (by simp)
    | ok u =>
      rw [hx, exceptOkBind] at h
      rcases List.mem_cons.mp hr with rfl | hmem
      · cases u; exact hx
      · exact checkReferences_mem xs r h hmem

/-- Conversely, a list of certified references passes the check. -/
theorem checkReferences_all : ∀ l : List Json,
    (∀ r ∈ l, checkReference r = Except.ok ()) → checkReferences l = Except.ok ()
  | [], _ => rfl
  | x :: xs, h => by
    unfold checkReferences
    rw [h x (List.mem_cons_self x xs), exceptOkBind]
    exact checkReferences_all xs (fun r hr => h r (List.mem_cons_of_mem x hr))

/-- Rounding half-to-even at an integer is the identity. -/
theorem roundHalfEven_intCast (n : ℤ) : roundHalfEven (n : ℚ) = n := by
  unfold roundHalfEven
  rw [Int.floor_intCast]
  rw [if_pos]
  rw [sub_self]
  norm_num

/-- `round(round(x,1),1) = round(x,1)`. -/
theorem roundTenths_idem (x : ℚ) : roundTenths (roundTenths x) = roundTenths x := by
  unfold roundTenths
  have h10 : (10 : ℚ) * ((roundHalfEven (10 * x) : ℚ) / 10)
      = (roundHalfEven (10 * x) : ℚ) := by
    field_simp
  rw [h10, roundHalfEven_intCast]

/-- The half-even rounding stays inside integer bounds enclosing its
argument. -/
theorem roundHalfEven_bounds (q : ℚ) (lo hi : ℤ)
    (h1 : (lo : ℚ) ≤ q) (h2 : q ≤ (hi : ℚ)) :
    lo ≤ roundHalfEven q ∧ roundHalfEven q ≤ hi := by
  have hfl_lo : lo ≤ ⌊q⌋ := by
    rw [Int.le_floor]
    exact h1
  have hfl_hi : ⌊q⌋ ≤ hi := by
    calc ⌊q⌋ ≤ ⌊(hi : ℚ)⌋ := Int.floor_le_floor h2
      _ = hi := Int.floor_intCast hi
  have hstep : ∀ hhalf : (1 : ℚ) / 2 ≤ q - ⌊q⌋, ⌊q⌋ + 1 ≤ hi := by
    intro hhalf
    have : (⌊q⌋ : ℚ) + 1 / 2 ≤ (hi : ℚ) := by
      have := Int.floor_le q
      linarith
    have hlt : (⌊q⌋ : ℚ) < (hi : ℚ) := by linarith
    exact Int.add_one_le_iff.mpr (by exact_mod_cast hlt)
  unfold roundHalfEven
  by_cases hc1 : q - ⌊q⌋ < 1 / 2
  · rw [if_pos hc1]
    exact ⟨hfl_lo, hfl_hi⟩
  · rw [if_neg hc1]
    have hhalf : (1 : ℚ) / 2 ≤ q - ⌊q⌋ := le_of_not_lt hc1
    by_cases hc2 : q - ⌊q⌋ > 1 / 2
    · rw [if_pos hc2]
      exact ⟨le_trans hfl_lo (by omega), hstep hhalf⟩
    · rw [if_neg hc2]
      by_cases hc3 : ⌊q⌋ % 2 = 0
      · rw [if_pos hc3]
        exact ⟨hfl_lo, hfl_hi⟩
      · rw [if_neg hc3]
        exact ⟨le_trans hfl_lo (by omega), hstep hhalf⟩

/-- A successful rating validation yields a normalized rating. -/
theorem validateRating_ok (r r' : Option ℚ)
    (h : validateRating r = Except.ok r') : ratingNormalized r' := by
  cases r with
  | none =>
    have : r' = none := (Except.ok.inj h).symm
    subst this
    intro x hx
    exact absurd hx (by simp)
  | some v =>
    simp only [validateRating] at h
    by_cases hb : 0 ≤ v ∧ v ≤ 5
    · rw [if_pos hb] at h
      have : r' = some (roundTenths v) := (Except.ok.inj h).symm
      subst this
      intro x hx
      have hx' : roundTenths v = x := by simpa using hx
      subst hx'
      obtain ⟨hlo, hhi⟩ := roundHalfEven_bounds (10 * v) 0 50
        (by push_cast; linarith [hb.1]) (by push_cast; linarith [hb.2])
      refine ⟨?_, ?_, roundTenths_idem v⟩
      · unfold roundTenths
        have h0 : (0 : ℚ) ≤ (roundHalfEven (10 * v) : ℚ) := by exact_mod_cast hlo
        exact div_nonneg h0 (by norm_num)
      · unfold roundTenths
        have h50 : (roundHalfEven (10 * v) : ℚ) ≤ 50 := by exact_mod_cast hhi
        have hdiv := (div_le_div_iff_of_pos_right (show (0 : ℚ) < 10 by norm_num)).mpr h50
        have h510 : (50 : ℚ) / 10 = 5 := by norm_num
        rw [h510] at hdiv
        exact hdiv
    · rw [if_neg hb] at h
      exact absurd h (by simp)

/-- A successful `ImageValidator` run yields invariant-satisfying values. -/
theorem imageValidator_ok_invariant (pm : Json) (r : Option ℚ) (v : ValidatedMeta)
    (h : imageValidator pm r = Except.ok v) :
    validate_prompt_meta_structure v.prompt_meta = Except.ok v.prompt_meta ∧
      ratingNormalized v.rating := by
  unfold imageValidator at h
  cases hpm : validate_prompt_meta_structure pm with
  | error e =>
    rw [hpm, exceptErrBind] at h
    exact absurd h (by simp)
  | ok pm1 =>
    rw [hpm] at h
    simp only [exceptOkBind] at h
    cases hr : validateRating r with
    | error e =>
      rw [hr, exceptErrBind] at h
      exact absurd h (by simp)
    | ok r1 =>
      rw [hr] at h
      simp only [exceptOkBind] at h
      have hv : v = ⟨pm1, r1⟩ := (Except.ok.inj h).symm
      subst hv
      have hpm1 : pm1 = pm := validate_ok_eq pm pm1 hpm
      subst hpm1
      exact ⟨hpm, validateRating_ok r r1 hr⟩

/-- Every record built through `models.Image.__init__` satisfies the
invariant. -/
theorem mkImage_invariant (d : ImageData) (now : Nat) (img : Image)
    (h : mkImage d now = Except.ok img) : imageInvariant img := by
  unfold mkImage at h
  cases hv : imageValidator d.prompt_meta d.rating with
  | error e =>
    rw [hv, exceptErrBind] at h
    exact absurd h (by simp)
  | ok v =>
    rw [hv] at h
    simp only [exceptOkBind] at h
    obtain ⟨h1, h2⟩ := imageValidator_ok_invariant d.prompt_meta d.rating v hv
    have himg := Except.ok.inj h
    subst himg
    exact ⟨h1, h2⟩

/-- The resolve loop never touches the image rows. -/
theorem foldl_ensureTagStep_images (u : List String) :
    ∀ acc : DB × List Tag, (u.foldl ensureTagStep acc).fst.images = acc.fst.images := by
  induction u with
  | nil => intro acc; rfl
  | cons n rest ih =>
    intro acc
    rw [List.foldl_cons, ih (ensureTagStep acc n)]
    obtain ⟨t, _, hstep⟩ := ensureTagStep_eq acc n
    rw [hstep]
    unfold insertTagIfAbsent
    by_cases h : acc.fst.tagRows.any (fun tg => tg.name == n)
    · rw [if_pos h]
    · rw [if_neg h]

/-- Tag resolution never touches the image rows. -/
theorem ensure_tags_images (db : DB) (names : List String) :
    (ensure_tags db names).fst.images = db.images := by
  unfold ensure_tags
  exact foldl_ensureTagStep_images _ (db, [])

/-- A found record is one of the store's rows. -/
theorem get_image_mem (db : DB) (imageId : String) (img : Image)
    (h : get_image db imageId = Except.ok img) : img ∈ db.images := by
  unfold get_image at h
  cases hf : db.images.find? (fun i => i.id == imageId) with
  | none => rw [hf] at h; exact absurd h (by simp)
  | some i =>
    rw [hf] at h
    have := Except.ok.inj h
    subst this
    exact List.mem_of_find?_eq_some hf

/-- `create_image` preserves the store-wide invariant. -/
theorem create_image_invariant (db : DB) (data : ImageCreate) (newId : String)
    (now : Nat) (db1 : DB) (img : Image)
    (h : create_image db data newId now = Except.ok (db1, img))
    (hpre : ∀ i ∈ db.images, imageInvariant i) :
    ∀ i ∈ db1.images, imageInvariant i := by
  unfold create_image at h
  cases hmk : mkImage
      { id := newId, file_name := data.file_name, media_type := data.media_type
        prompt_text := data.prompt_text, prompt_meta := data.prompt_meta
        ai_model := data.ai_model, notes := data.notes, rating := data.rating
        thumbnail_file := data.thumbnail_file
        captured_at := data.captured_at } now with
  | error e =>
    rw [hmk, exceptErrBind] at h
    exact absurd h (by simp)
  | ok imgNew =>
    rw [hmk] at h
    simp only [exceptOkBind] at h
    have hpair := Except.ok.inj h
    have hdb : db1 = { (ensure_tags db data.tags).fst with
        images := (ensure_tags db data.tags).fst.images ++ [imgNew]
        linkRows := (ensure_tags db data.tags).fst.linkRows ++
          (ensure_tags db data.tags).snd.map (fun t => (imgNew.id, t.id)) } :=
      (congrArg Prod.fst hpair).symm
    subst hdb
    intro i hi
    simp only [ensure_tags_images] at hi
    rcases List.mem_append.mp hi with hmem | hmem
    · exact hpre i hmem
    · have : i = imgNew := by simpa using hmem
      subst this
      exact mkImage_invariant _ now i hmk

/-- `update_image` preserves the store-wide invariant. -/
theorem update_image_invariant (db : DB) (imageId : String) (u : ImageUpdate)
    (now : Nat) (db1 : DB) (img1 : Image)
    (h : update_image db imageId u now = Except.ok (db1, img1))
    (hpre : ∀ i ∈ db.images, imageInvariant i) :
    ∀ i ∈ db1.images, imageInvariant i := by
  unfold update_image at h
  cases hg : get_image db imageId with
  | error e =>
    rw [hg, exceptErrBind] at h
    exact absurd h (by simp)
  | ok img0 =>
    rw [hg] at h
    simp only [exceptOkBind] at h
    have hinv0 : imageInvariant img0 := hpre img0 (get_image_mem db imageId img0 hg)
    by_cases hc : (u.prompt_meta.isSome || u.rating.isSome || u.media_type.isSome ||
        u.thumbnail_file.isSome) = true
    · rw [if_pos hc] at h
      cases hv : validate_and_normalize_updates img0 u with
      | error e =>
        rw [hv, exceptErrBind] at h
        exact absurd h (by simp)
      | ok u1 =>
        rw [hv] at h
        simp only [exceptOkBind] at h
        obtain ⟨⟨v, hval, hu1⟩, _⟩ := validate_updates_spec img0 u u1 hv
        obtain ⟨hvpm, hvr⟩ :=
          imageValidator_ok_invariant _ _ v hval
        have hdb := (congrArg Prod.fst (Except.ok.inj h)).symm
        subst hdb
        intro i hi
        rcases List.mem_map.mp (by
          cases htags : u.tags with
          | none => simpa [htags] using hi
          | some names => simpa [htags, ensure_tags_images] using hi) with ⟨j, hj, hij⟩
        subst hu1
        subst hij
        by_cases hjid : j.id = imageId
        · rw [if_pos hjid]
          constructor
          · cases hpm : u.prompt_meta with
            | none => simpa [hpm] using hinv0.1
            | some pm => simpa [hpm] using hvpm
          · cases hr : u.rating with
            | none => simpa [hr] using hinv0.2
            | some r => simpa [hr] using hvr
        · rw [if_neg hjid]
          exact hpre j hj
    · rw [if_neg hc] at h
      have hpm : u.prompt_meta = none := by
        cases hpm : u.prompt_meta <;> simp [hpm] at hc ⊢
      have hr : u.rating = none := by
        cases hr : u.rating <;> simp [hr] at hc ⊢
      have hdb := (congrArg Prod.fst (Except.ok.inj h)).symm
      subst hdb
      intro i hi
      rcases List.mem_map.mp (by
        cases htags : u.tags with
        | none => simpa [htags] using hi
        | some names => simpa [htags, ensure_tags_images] using hi) with ⟨j, hj, hij⟩
      subst hij
      by_cases hjid : j.id = imageId
      · rw [if_pos hjid]
        constructor
        · simpa [hpm] using hinv0.1
        · simpa [hr] using hinv0.2
      · rw [if_neg hjid]
        exact hpre j hj

/-- Generated record ids are never the empty string. -/
theorem freshImageId_ne_empty (n : Nat) : freshImageId n ≠ "" := by
  unfold freshImageId
  intro h
  have hd := congrArg String.data h
  rw [String.data_append] at hd
  have := List.append_eq_nil.mp hd
  exact absurd this.1 (by decide)

/-- A successful list validation certifies the reference prefix. -/
theorem validate_arr_ok (xs : List Json) (w : Json)
    (h : validate_prompt_meta_structure (Json.arr xs) = Except.ok w) :
    checkReferences xs.dropLast = Except.ok () := by
  simp only [validate_prompt_meta_structure] at h
  cases hl : xs.getLast? with
  | none =>
    rw [hl] at h
    exact absurd h (by simp)
  | some lastVal =>
    rw [hl] at h
    cases lastVal with
    | str s =>
      cases hc : checkReferences xs.dropLast with
      | error e =>
        rw [hc, exceptErrBind] at h
        exact absurd h (by simp)
      | ok u =>
        cases u
        rfl
    | null => exact absurd h (by simp)
    | bool b => exact absurd h (by simp)
    | num q => exact absurd h (by simp)
    | arr ys => exact absurd h (by simp)
    | obj kvs => exact absurd h (by simp)

/-- The reference dicts produced by `normalize_prompt` are
validator-certified. -/
theorem normalize_prompt_refs (p : Json) (t : String) (m : Json)
    (refs : List (List (String × Json)))
    (h : normalize_prompt p = Except.ok (t, m, refs)) :
    ∀ kvs ∈ refs, refDictOk kvs := by
  cases p with
  | null =>
    have := Except.ok.inj h
    intro kvs hk
    rw [show refs = [] from (congrArg (fun x => x.snd.snd) this).symm] at hk
    exact absurd hk (List.not_mem_nil kvs)
  | str s =>
    have := Except.ok.inj h
    intro kvs hk
    rw [show refs = [] from (congrArg (fun x => x.snd.snd) this).symm] at hk
    exact absurd hk (List.not_mem_nil kvs)
  | obj kvs0 =>
    have := Except.ok.inj h
    intro kvs hk
    rw [show refs = [] from (congrArg (fun x => x.snd.snd) this).symm] at hk
    exact absurd hk (List.not_mem_nil kvs)
  | bool b => exact absurd h (by simp [normalize_prompt])
  | num q => exact absurd h (by simp [normalize_prompt])
  | arr xs =>
    simp only [normalize_prompt] at h
    cases hv : validate_prompt_meta_structure (Json.arr xs) with
    | error e =>
      rw [hv] at h
      exact absurd h (by simp)
    | ok w =>
      rw [hv] at h
      have hrefs : checkReferences xs.dropLast = Except.ok () :=
        validate_arr_ok xs w hv
      cases hl : xs.getLast? with
      | none =>
        rw [hl] at h
        exact absurd h (by simp)
      | some lastVal =>
        rw [hl] at h
        cases lastVal with
        | str s =>
          have hr : refs = xs.dropLast.filterMap
              (fun j => match j with | Json.obj kvs => some kvs | _ => none) :=
            (congrArg (fun x => x.snd.snd) (Except.ok.inj h)).symm
          subst hr
          intro kvs hk
          obtain ⟨j, hj, hjk⟩ := List.mem_filterMap.mp hk
          have hjobj : j = Json.obj kvs := by
            cases j <;> simp at hjk
            rw [hjk]
          subst hjobj
          exact checkReferences_mem xs.dropLast (Json.obj kvs) hrefs hj
        | null => exact absurd h (by simp)
        | bool b => exact absurd h (by simp)
        | num q => exact absurd h (by simp)
        | arr ys => exact absurd h (by simp)
        | obj kvs1 => exact absurd h (by simp)

/-- The tail of `convert_entry` after the media type is settled: on
success the converted entry carries exactly the references that
`normalize_prompt` certified. -/
theorem convert_tail_reference_dicts (e : LegacyEntry)
    (res : String × Json × List (List (String × Json)))
    (sname : String) (mt : MediaType) (c : ConvertedEntry)
    (h : (do
      let rating ← normalize_rating e.rating
      let thumbnailFile ← sanitize_optional_thumbnail e.thumbnail_file
      if (mt == MediaType.video && thumbnailFile.isNone && res.snd.snd.isEmpty) = true then
        Except.error "Video entries must include a thumbnail_file or reference another asset"
      else
        Except.ok
          ({ payload :=
              { file_name := sname, prompt_text := res.fst
                prompt_meta := res.snd.fst, ai_model := e.ai_model, notes := e.notes
                rating := rating, media_type := mt
                thumbnail_file := thumbnailFile, captured_at := e.date }
             tags := pyUniqueSorted
               ((e.tags.filter (fun t => pyStrip t != "")).map (fun t => pyLower (pyStrip t)))
             legacy_id := e.id, reference_dicts := res.snd.snd
             thumbnail_source := if thumbnailFile.isSome then e.thumbnail_file
               else none } : ConvertedEntry))
      = Except.ok c) :
    c.reference_dicts = res.snd.snd := by
  cases hrat : normalize_rating e.rating with
  | error e1 =>
    rw [hrat, exceptErrBind] at h
    exact absurd h (by simp)
  | ok rat =>
    rw [hrat] at h
    simp only [exceptOkBind] at h
    cases hth : sanitize_optional_thumbnail e.thumbnail_file with
    | error e1 =>
      rw [hth, exceptErrBind] at h
      exact absurd h (by simp)
    | ok th =>
      rw [hth] at h
      simp only [exceptOkBind] at h
      by_cases hcond :
          (mt == MediaType.video && th.isNone && res.snd.snd.isEmpty) = true
      · rw [if_pos hcond] at h
        exact absurd h (by simp)
      · rw [if_neg hcond] at h
        exact (congrArg ConvertedEntry.reference_dicts (Except.ok.inj h)).symm

/-- The reference dicts carried by a converted entry are
validator-certified. -/
theorem convert_entry_refs (e : LegacyEntry) (c : ConvertedEntry)
    (h : convert_entry e = Except.ok c) :
    ∀ kvs ∈ c.reference_dicts, refDictOk kvs := by
  simp only [convert_entry] at h
  cases hres : normalize_prompt e.prompt with
  | error e1 =>
    rw [hres, exceptErrBind] at h
    exact absurd h (by simp)
  | ok res =>
    rw [hres] at h
    simp only [exceptOkBind] at h
    cases hsan : sanitize_storage_name e.file with
    | error e1 =>
      rw [hsan, exceptErrBind] at h
      exact absurd h (by simp)
    | ok sname =>
      rw [hsan] at h
      simp only [exceptOkBind] at h
      have hrd : c.reference_dicts = res.snd.snd := by
        cases hemt : e.media_type with
        | none =>
          rw [hemt] at h
          simp only [] at h
          exact convert_tail_reference_dicts e res sname (detect_media_type sname) c h
        | some s =>
          rw [hemt] at h
          simp only [] at h
          cases hp : MediaType.parse s with
          | error e1 =>
            rw [hp, exceptErrBind] at h
            exact absurd h (by simp)
          | ok mt =>
            rw [hp] at h
            simp only [exceptOkBind] at h
            exact convert_tail_reference_dicts e res sname mt c h
      intro kvs hk
      rw [hrd] at hk
      exact normalize_prompt_refs e.prompt res.fst res.snd.fst res.snd.snd hres kvs hk

/-- `models.Image.__init__` keeps the supplied id. -/
theorem mkImage_id (d : ImageData) (now : Nat) (img : Image)
    (h : mkImage d now = Except.ok img) : img.id = d.id := by
  unfold mkImage at h
  cases hv : imageValidator d.prompt_meta d.rating with
  | error e =>
    rw [hv, exceptErrBind] at h
    exact absurd h (by simp)
  | ok v =>
    rw [hv] at h
    simp only [exceptOkBind] at h
    have := Except.ok.inj h
    subst this
    rfl

/-- A dict assignment with a non-empty-id value keeps the lookup
well-formed. -/
theorem lookupSet_ok (lk : List (String × LookupEntry)) (k : String)
    (v : LookupEntry) (hlk : lookupOk lk) (hv : v.newId ≠ "") :
    lookupOk (lookupSet lk k v) := by
  unfold lookupSet
  by_cases h : lk.any (fun p => p.fst == k)
  · rw [if_pos h]
    intro p hp
    obtain ⟨q, hq, hpq⟩ := List.mem_map.mp hp
    by_cases hqk : (q.fst == k) = true
    · rw [if_pos hqk] at hpq
      subst hpq
      exact hv
    · rw [if_neg hqk] at hpq
      subst hpq
      exact hlk q hq
  · rw [if_neg h]
    intro p hp
    rcases List.mem_append.mp hp with hmem | hmem
    · exact hlk p hmem
    · have : p = (k, v) := by simpa using hmem
      subst this
      exact hv

/-- The thumbnail write keeps the lookup well-formed (ids are untouched;
a `setdefault`-inserted entry carries the record's real id). -/
theorem setLookupThumb_ok (lk : List (String × LookupEntry))
    (lid iid fn : String) (rep : Option String)
    (hlk : lookupOk lk) (hiid : iid ≠ "") :
    lookupOk (setLookupThumb lk lid iid fn rep) := by
  unfold setLookupThumb
  by_cases h : lk.any (fun p => p.fst == lid)
  · rw [if_pos h]
    intro p hp
    obtain ⟨q, hq, hpq⟩ := List.mem_map.mp hp
    by_cases hqk : (q.fst == lid) = true
    · rw [if_pos hqk] at hpq
      subst hpq
      exact hlk q hq
    · rw [if_neg hqk] at hpq
      subst hpq
      exact hlk q hq
  · rw [if_neg h]
    intro p hp
    rcases List.mem_append.mp hp with hmem | hmem
    · exact hlk p hmem
    · have : p = (lid, ⟨iid, fn, rep⟩) := by simpa using hmem
      subst this
      exact hiid

/-- Unpacking a certified reference dict. -/
theorem refDictOk_spec (kvs : List (String × Json)) (h : refDictOk kvs) :
    keySetIsExactlyId kvs = true ∧
      ∃ s, jsonGet kvs "id" = some (Json.str s) ∧ s ≠ "" := by
  unfold refDictOk checkReference at h
  simp only [] at h
  by_cases hk : keySetIsExactlyId kvs = true
  · rw [if_pos hk] at h
    refine ⟨hk, ?_⟩
    cases hg : jsonGet kvs "id" with
    | none =>
      rw [hg] at h
      exact absurd h (by simp)
    | some j =>
      rw [hg] at h
      cases j with
      | str s =>
        simp only [] at h
        by_cases hs : (s == "") = true
        · rw [if_pos hs] at h
          exact absurd h (by simp)
        · refine ⟨s, rfl, ?_⟩
          intro heq
          exact hs (by rw [heq]; rfl)
      | null => exact absurd h (by simp)
      | bool b => exact absurd h (by simp)
      | num q => exact absurd h (by simp)
      | arr ys => exact absurd h (by simp)
      | obj kvs1 => exact absurd h (by simp)
  · rw [if_neg hk] at h
    exact absurd h (by simp)

/-- Building a certified reference dict. -/
theorem refDictOk_intro (kvs : List (String × Json))
    (hk : keySetIsExactlyId kvs = true) (s : String)
    (hg : jsonGet kvs "id" = some (Json.str s)) (hs : s ≠ "") :
    refDictOk kvs := by
  unfold refDictOk checkReference
  simp only []
  rw [if_pos hk, hg]
  have hsb : (s == "") = false := by
    cases hb : (s == "") with
    | false => rfl
    | true => exact absurd (by simpa using hb) hs
  simp [hsb]

/-- A resolved lookup value is one of the table's entries. -/
theorem lookupGet_mem (lk : List (String × LookupEntry)) (k : String)
    (v : LookupEntry) (h : lookupGet lk k = some v) : ∃ p ∈ lk, p.snd = v := by
  unfold lookupGet at h
  cases hf : lk.find? (fun p => p.fst == k) with
  | none =>
    rw [hf] at h
    exact absurd h (by simp)
  | some p =>
    rw [hf] at h
    exact ⟨p, List.mem_of_find?_eq_some hf, by simpa using h⟩

/-- Replacing the id value of a certified reference dict by another
non-empty id yields a certified reference dict. -/
theorem refDictOk_replaceId (kvs : List (String × Json)) (newId : String)
    (h : refDictOk kvs) (hid : newId ≠ "") :
    refDictOk (kvs.map
      (fun kv => if kv.fst == "id" then ("id", Json.str newId) else kv)) := by
  obtain ⟨hk, s, hg, _⟩ := refDictOk_spec kvs h
  unfold keySetIsExactlyId at hk
  rcases Bool.and_eq_true _ _ ▸ hk with ⟨hne, hall⟩
  cases kvs with
  | nil => simp at hne
  | cons kv0 rest =>
    have hkv0 : (kv0.fst == "id") = true :=
      List.all_eq_true.mp hall kv0 (List.mem_cons_self kv0 rest)
    apply refDictOk_intro _ ?_ newId ?_ hid
    · unfold keySetIsExactlyId
      rw [Bool.and_eq_true]
      constructor
      · simp [List.map_cons]
      · rw [List.all_eq_true]
        intro kv hkv
        obtain ⟨kv1, hkv1, hkveq⟩ := List.mem_map.mp hkv
        by_cases h1 : (kv1.fst == "id") = true
        · rw [if_pos h1] at hkveq
          subst hkveq
          rfl
        · rw [if_neg h1] at hkveq
          subst hkveq
          exact List.all_eq_true.mp hall kv1 hkv1
    · unfold jsonGet
      rw [List.map_cons, if_pos hkv0]
      rw [List.find?_cons_of_pos _ (by rfl)]
      rfl

/-- One reference-resolution step keeps the accumulated rewritten
references certified. -/
theorem resolveRefStep_updatedRefs (lookup : List (String × LookupEntry))
    (hlk : lookupOk lookup) (acc : RefFold) (ref : List (String × Json))
    (hacc : ∀ nr ∈ acc.updatedRefs, refDictOk nr) (href : refDictOk ref) :
    ∀ nr ∈ (resolveRefStep lookup acc ref).updatedRefs, refDictOk nr := by
  unfold resolveRefStep
  split
  all_goals try exact hacc
  rename_i s heq
  split
  all_goals try exact hacc
  split
  all_goals try exact hacc
  rename_i mapped hlg
  intro nr hnr
  rcases List.mem_append.mp hnr with hmem | hmem
  · exact hacc nr hmem
  · have hnr' : nr = ref.map
        (fun kv => if kv.fst == "id" then ("id", Json.str mapped.newId) else kv) := by
      simpa using hmem
    subst hnr'
    obtain ⟨p, hp, hpv⟩ := lookupGet_mem lookup s mapped hlg
    exact refDictOk_replaceId ref mapped.newId href (hpv ▸ hlk p hp)

/-- The resolution loop keeps every rewritten reference certified. -/
theorem resolveRefs_fold_updatedRefs (lookup : List (String × LookupEntry))
    (hlk : lookupOk lookup) :
    ∀ (refs : List (List (String × Json))) (acc : RefFold),
      (∀ nr ∈ acc.updatedRefs, refDictOk nr) → (∀ r ∈ refs, refDictOk r) →
      ∀ nr ∈ (refs.foldl (resolveRefStep lookup) acc).updatedRefs, refDictOk nr
  | [], _, hacc, _ => hacc
  | r :: rs, acc, hacc, hrefs => by
    rw [List.foldl_cons]
    exact resolveRefs_fold_updatedRefs lookup hlk rs _
      (resolveRefStep_updatedRefs lookup hlk acc r hacc
        (hrefs r (List.mem_cons_self r rs)))
      (fun x hx => hrefs x (List.mem_cons_of_mem r hx))

/-- A list of certified reference dicts followed by a prompt string passes
the structural validator unchanged. -/
theorem validate_ref_list (refs : List (List (String × Json))) (t : String)
    (hrefs : ∀ kvs ∈ refs, refDictOk kvs) :
    validate_prompt_meta_structure (Json.arr (refs.map Json.obj ++ [Json.str t]))
      = Except.ok (Json.arr (refs.map Json.obj ++ [Json.str t])) := by
  have h1 : (refs.map Json.obj ++ [Json.str t]).getLast? = some (Json.str t) := by
    rw [List.getLast?_concat]
  have h2 : (refs.map Json.obj ++ [Json.str t]).dropLast = refs.map Json.obj :=
    List.dropLast_concat
  have h3 : checkReferences (refs.map Json.obj) = Except.ok () := by
    apply checkReferences_all
    intro r hr
    obtain ⟨kvs, hk, hkr⟩ := List.mem_map.mp hr
    rw [hkr.symm]
    exact hrefs kvs hk
  simp only [validate_prompt_meta_structure, h1, h2, h3, exceptOkBind]

/-- One phase-2 step keeps every image row invariant-satisfying and the
lookup well-formed. -/
theorem applyOneReferenceUpdate_ok (st : List Image × List (String × LookupEntry))
    (record : ImportedRecord)
    (himages : ∀ i ∈ st.fst, imageInvariant i)
    (hlookup : lookupOk st.snd)
    (hrec : importedRecordOk record) :
    (∀ i ∈ (applyOneReferenceUpdate st record).fst, imageInvariant i) ∧
      lookupOk (applyOneReferenceUpdate st record).snd := by
  have hrefsOk : ∀ nr ∈ (resolveRefs st.snd record.reference_dicts).updatedRefs,
      refDictOk nr :=
    resolveRefs_fold_updatedRefs st.snd hlookup record.reference_dicts ⟨[], none⟩
      (fun nr hnr => absurd hnr (List.not_mem_nil nr)) hrec.2
  unfold applyOneReferenceUpdate
  simp only []
  by_cases h1 : record.reference_dicts.isEmpty = true
  · rw [if_pos h1]
    exact ⟨himages, hlookup⟩
  rw [if_neg h1]
  cases hfind : st.fst.find? (fun i => i.id == record.image_id) with
  | none =>
    simp only []
    exact ⟨himages, hlookup⟩
  | some image =>
    simp only []
    have hmem_image : image ∈ st.fst := List.mem_of_find?_eq_some hfind
    have hinv_image : imageInvariant image := himages image hmem_image
    have himgs : ∀ img2 : Image, imageInvariant img2 →
        ∀ i ∈ st.fst.map
            (fun i => if (i.id == record.image_id) = true then img2 else i),
          imageInvariant i := by
      intro img2 hinv2 i hi
      rcases List.mem_map.mp hi with ⟨j, hj, hij⟩
      subst hij
      by_cases hb : (j.id == record.image_id) = true
      · rw [if_pos hb]
        exact hinv2
      · rw [if_neg hb]
        exact himages j hj
    have harrv := validate_ref_list
      (resolveRefs st.snd record.reference_dicts).updatedRefs image.prompt_text hrefsOk
    by_cases h2 : (resolveRefs st.snd record.reference_dicts).updatedRefs.isEmpty = true
    · rw [if_pos h2]
      exact ⟨himages, hlookup⟩
    rw [if_neg h2]
    by_cases h3 : (!record.has_explicit_thumbnail) = true
    · rw [if_pos h3]
      cases hfs : (resolveRefs st.snd record.reference_dicts).firstSource with
      | none =>
        simp only []
        exact ⟨himgs _ ⟨harrv, hinv_image.2⟩, hlookup⟩
      | some firstSrc =>
        simp only []
        cases hlid : record.legacy_id with
        | none =>
          simp only []
          exact ⟨himgs _ ⟨harrv, hinv_image.2⟩, hlookup⟩
        | some lid =>
          simp only []
          by_cases h4 : (lid != "" && optStrTruthy (thumbnailOrFileName firstSrc)) = true
          · rw [if_pos h4]
            exact ⟨himgs _ ⟨harrv, hinv_image.2⟩,
              setLookupThumb_ok st.snd lid record.image_id _ _ hlookup hrec.1⟩
          · rw [if_neg h4]
            exact ⟨himgs _ ⟨harrv, hinv_image.2⟩, hlookup⟩
    · rw [if_neg h3]
      exact ⟨himgs _ ⟨harrv, hinv_image.2⟩, hlookup⟩

/-- Destructor for a successful `Except` bind. -/
theorem exceptBindOk {ε α β : Type} (m : Except ε α) (f : α → Except ε β)
    (b : β) (h : (m >>= f) = Except.ok b) :
    ∃ a, m = Except.ok a ∧ f a = Except.ok b := by
  cases m with
  | error e =>
    rw [exceptErrBind] at h
    exact absurd h (by simp)
  | ok a =>
    rw [exceptOkBind] at h
    exact ⟨a, rfl, h⟩

/-- The phase-2 pass keeps every image row invariant-satisfying. -/
theorem apply_reference_updates_ok :
    ∀ (records : List ImportedRecord) (st : List Image × List (String × LookupEntry)),
      (∀ i ∈ st.fst, imageInvariant i) → lookupOk st.snd →
      (∀ r ∈ records, importedRecordOk r) →
      ∀ i ∈ (apply_reference_updates records st).fst, imageInvariant i
  | [], _, himages, _, _ => himages
  | r :: rs, st, himages, hlookup, hrecs => by
    have hstep := applyOneReferenceUpdate_ok st r himages hlookup
      (hrecs r (List.mem_cons_self r rs))
    exact apply_reference_updates_ok rs (applyOneReferenceUpdate st r)
      hstep.1 hstep.2 (fun x hx => hrecs x (List.mem_cons_of_mem r hx))

/-- One phase-1 iteration of the legacy import keeps the loop invariant:
all image rows satisfy the persisted-record invariant, the lookup holds
only real generated ids, and every accumulated record is well-formed. -/
theorem import_one_ok (sourceFiles : List String) (dryRun : Bool) (now : Nat)
    (st : ImportState) (e : LegacyEntry) (st1 : ImportState)
    (h : import_one sourceFiles dryRun now st e = Except.ok st1)
    (hpre : importStateOk st) : importStateOk st1 := by
  obtain ⟨himages, hlookup, hrecords⟩ := hpre
  unfold import_one at h
  obtain ⟨converted, hconv, h⟩ := exceptBindOk _ _ _ h
  obtain ⟨u1, hu1, h⟩ := exceptBindOk _ _ _ h
  obtain ⟨u2, hu2, h⟩ := exceptBindOk _ _ _ h
  obtain ⟨copied, hcop, h⟩ := exceptBindOk _ _ _ h
  obtain ⟨img, hmk, h⟩ := exceptBindOk _ _ _ h
  have hst1 := (Except.ok.inj h).symm
  subst hst1
  have himgid : img.id = freshImageId st.nextIdx := mkImage_id _ _ _ hmk
  have himgne : img.id ≠ "" := by
    rw [himgid]
    exact freshImageId_ne_empty st.nextIdx
  have hinv : imageInvariant img := mkImage_invariant _ _ _ hmk
  unfold importStateOk
  refine ⟨?_, ?_, ?_⟩
  · intro i hi
    simp only [ensure_tags_images] at hi
    rcases List.mem_append.mp hi with hmem | hmem
    · exact himages i hmem
    · have hieq : i = img := by simpa using hmem
      subst hieq
      exact hinv
  · cases hlid : converted.legacy_id with
    | none =>
      simp only []
      exact hlookup
    | some lid =>
      simp only []
      by_cases hne : (lid != "") = true
      · rw [if_pos hne]
        exact lookupSet_ok st.lookup lid _ hlookup himgne
      · rw [if_neg hne]
        exact hlookup
  · intro r hr
    rcases List.mem_append.mp hr with hmem | hmem
    · exact hrecords r hmem
    · have hreq : r = ⟨img.id, converted.legacy_id, converted.reference_dicts,
          optStrTruthy img.thumbnail_file, img.media_type⟩ := by simpa using hmem
      subst hreq
      exact ⟨himgne, convert_entry_refs e converted hconv⟩

/-- The whole phase-1 pass keeps the loop invariant. -/
theorem entries_fold_ok (sourceFiles : List String) (dryRun : Bool) (now : Nat) :
    ∀ (entries : List LegacyEntry) (st st1 : ImportState),
      entries.foldlM (import_one sourceFiles dryRun now) st = Except.ok st1 →
      importStateOk st → importStateOk st1
  | [], st, st1, h, hpre => by
    rw [List.foldlM_nil] at h
    exact (Except.ok.inj h) ▸ hpre
  | e :: rest, st, st1, h, hpre => by
    rw [List.foldlM_cons] at h
    obtain ⟨st2, hstep, h⟩ := exceptBindOk _ _ _ h
    exact entries_fold_ok sourceFiles dryRun now rest st2 st1 h
      (import_one_ok sourceFiles dryRun now st e st2 hstep hpre)

/-- C10: every record persisted through `create_image`, `update_image` or
the legacy importer satisfies the implicit invariant — its prompt metadata
passes `validate_prompt_meta_structure` unchanged and any present rating
lies in `[0, 5]` and equals its own banker's rounding to one decimal; in
particular the phase-2 reconciliation rewrite, which assigns `prompt_meta`
without re-running the validator, preserves the invariant because the
rewritten value is a list of certified id-only reference objects followed
by the prompt text string. -/
theorem persisted_record_invariant (db : DB)
    (hdb : ∀ i ∈ db.images, imageInvariant i) :
    (∀ (data : ImageCreate) (newId : String) (now : Nat) (db1 : DB) (img : Image),
       create_image db data newId now = Except.ok (db1, img) →
       ∀ i ∈ db1.images, imageInvariant i) ∧
    (∀ (imageId : String) (u : ImageUpdate) (now : Nat) (db1 : DB) (img : Image),
       update_image db imageId u now = Except.ok (db1, img) →
       ∀ i ∈ db1.images, imageInvariant i) ∧
    (∀ (store sourceFiles : List String) (entries : List LegacyEntry)
       (dryRun : Bool) (now : Nat) (db1 : DB) (store1 : List String),
       import_entries db store sourceFiles entries dryRun now
         = Except.ok (db1, store1) →
       ∀ i ∈ db1.images, imageInvariant i) := by
  refine ⟨?_, ?_, ?_⟩
  · intro data newId now db1 img h
    exact create_image_invariant db data newId now db1 img h hdb
  · intro imageId u now db1 img h
    exact update_image_invariant db imageId u now db1 img h hdb
  · intro store sourceFiles entries dryRun now db1 store1 h
    unfold import_entries at h
    obtain ⟨st, hfold, h⟩ := exceptBindOk _ _ _ h
    have hstOk : importStateOk st :=
      entries_fold_ok sourceFiles dryRun now entries ⟨db, store, [], [], 0⟩ st hfold
        ⟨hdb, fun p hp => absurd hp (List.not_mem_nil p),
          fun r hr => absurd hr (List.not_mem_nil r)⟩
    cases dryRun with
    | true =>
      simp only [] at h
      have hdb1 : db1 = db := (congrArg Prod.fst (Except.ok.inj h)).symm
      subst hdb1
      exact hdb
    | false =>
      simp only [] at h
      have hdb1 : db1 = { st.db with
          images := (apply_reference_updates st.records (st.db.images, st.lookup)).fst } :=
        (congrArg Prod.fst (Except.ok.inj h)).symm
      subst hdb1
      intro i hi
      exact apply_reference_updates_ok st.records (st.db.images, st.lookup)
        hstOk.1 hstOk.2.1 hstOk.2.2 i hi

/-- C10 witness: creating a concrete record over the empty store succeeds
and every persisted row satisfies the invariant. -/
theorem persisted_record_invariant_witness :
    ∃ (db1 : DB) (img : Image),
      create_image DB.empty
        { file_name := "ok.png", media_type := MediaType.image
          prompt_text := "hello"
          prompt_meta := Json.arr [Json.obj [("id", Json.str "abc")], Json.str "hello"]
          rating := none } "img-1" 0 = Except.ok (db1, img) ∧
      ∀ i ∈ db1.images, imageInvariant i := by
  refine ⟨_, _, rfl, ?_⟩
  exact (persisted_record_invariant DB.empty
      (fun i hi => absurd hi (List.not_mem_nil i))).1
    { file_name := "ok.png", media_type := MediaType.image
      prompt_text := "hello"
      prompt_meta := Json.arr [Json.obj [("id", Json.str "abc")], Json.str "hello"]
      rating := none } "img-1" 0 _ _ rfl

end AiImgLib
